import Mathlib

/-!
# myslock: the lock-acquisition / input state machine of `src/myslock.c`

A shallow embedding of `readpw`, `lockscreen`, `unlockscreen` and `main` of
`src/myslock.c` (the variant compiled without `HAVE_BSD_AUTH`), followed by
theorems about them.

Conventions of the embedding

* Bytes, keysyms, window and pixmap identifiers are natural numbers.
* `unsigned int len` is a `Nat`; the one place where it is added to
  (`len + num`, `len += num`) is taken modulo `2^32`.
* A C string argument is a list of bytes read up to (not including) its first
  NUL byte; a list that holds no NUL is terminated by its end.
* Calls into Xlib, libc and `crypt` are recorded as a trace of `Effect`s.  The
  answers of the outside world (looked-up key strings, grab results, the value
  of `crypt`, allocation results) are inputs of the model.
* An access that C leaves undefined (a write outside `passwd`, a read outside
  `locks`, dereferencing a NULL `Lock *`, handing the NULL that `crypt` may
  return to `strcmp`) is a `Fault`; the embedded functions return
  `Except Fault _`.
* `XNextEvent` always returns 0 and delivers the next event of a finite event
  list; when the list is exhausted while the loop still wants an event, the
  program is blocked inside `XNextEvent` (it does not return).
-/

namespace Myslock

/-! ## Keysyms (`X11/keysymdef.h`) and key classes (`X11/Xutil.h`) -/

def XK_BackSpace : Nat := 0xff08
def XK_Return : Nat := 0xff0d
def XK_Escape : Nat := 0xff1b
def XK_Select : Nat := 0xff60
def XK_Break : Nat := 0xff6b
def XK_KP_Space : Nat := 0xff80
def XK_KP_Enter : Nat := 0xff8d
def XK_KP_F1 : Nat := 0xff91
def XK_KP_F4 : Nat := 0xff94
def XK_KP_0 : Nat := 0xffb0
def XK_KP_9 : Nat := 0xffb9
def XK_KP_Equal : Nat := 0xffbd
def XK_F1 : Nat := 0xffbe
def XK_F35 : Nat := 0xffe0
def XK_0 : Nat := 0x0030

def IsKeypadKey (keysym : Nat) : Bool :=
  decide (XK_KP_Space ≤ keysym) && decide (keysym ≤ XK_KP_Equal)

def IsPrivateKeypadKey (keysym : Nat) : Bool :=
  decide (0x11000000 ≤ keysym) && decide (keysym ≤ 0x1100FFFF)

def IsPFKey (keysym : Nat) : Bool :=
  decide (XK_KP_F1 ≤ keysym) && decide (keysym ≤ XK_KP_F4)

def IsFunctionKey (keysym : Nat) : Bool :=
  decide (XK_F1 ≤ keysym) && decide (keysym ≤ XK_F35)

def IsMiscFunctionKey (keysym : Nat) : Bool :=
  decide (XK_Select ≤ keysym) && decide (keysym ≤ XK_Break)

/-! ## libc helpers -/

/-- The function `iscntrl` of `ctype.h` in the "C" locale (the program never
calls `setlocale`), on a byte value `0..255`: the control characters are
`0..31` and `127`. -/
def iscntrl (c : Nat) : Bool := decide (c < 32) || decide (c = 127)

/-- The bytes of the C string that starts at the head of `mem`: everything
before the first NUL. -/
def cstr (mem : List Nat) : List Nat := mem.takeWhile (fun b => b != 0)

/-- The function `strcmp` of `string.h`, on two byte sequences read as C
strings (the end of a list counts as the terminating NUL).  The result is the
difference of the first pair of bytes that differ, 0 when there is none. -/
def strcmp : List Nat → List Nat → Int
  | [], [] => 0
  | [], b :: _ => - (b : Int)
  | a :: _, [] => (a : Int)
  | a :: as, b :: bs =>
    if a ≠ b then (a : Int) - (b : Int)
    else if a = 0 then 0
    else strcmp as bs

/-- The function `memcpy(dst + off, src, n)` with `n = src.length`, for a copy
that lies inside `dst` (the callers check `off + n ≤ dst.length`). -/
def memcpy (dst : List Nat) (off : Nat) (src : List Nat) : List Nat :=
  dst.take off ++ src ++ dst.drop (off + src.length)

/-- The bytes of the string literal `"pw"`. -/
def pwLiteral : List Nat := [112, 119]

/-! ## Data model -/

/-- The C struct `Lock`. -/
structure Lock where
  screen : Nat
  root : Nat
  win : Nat
  pmap : Nat
deriving DecidableEq, Repr

/-- Calls into the outside world, in program order. -/
inductive Effect where
  /-- The call `fprintf(stderr, ...)` of `die` and `usage` -/
  | stderr (msg : String)
  /-- The call `XCreateWindow` on a screen, with the window it returns -/
  | createWindow (screen win : Nat)
  /-- The call `XAllocNamedColor` for the colour black -/
  | allocNamedColor (screen : Nat)
  /-- The call `XCreateBitmapFromData`, with the pixmap it returns -/
  | createBitmap (win pmap : Nat)
  /-- The call `XCreatePixmapCursor` -/
  | createPixmapCursor (pmap : Nat)
  /-- The call `XDefineCursor` -/
  | defineCursor (win : Nat)
  /-- The call `XMapRaised` -/
  | mapRaised (win : Nat)
  /-- One call of `XGrabPointer` and whether it returned `GrabSuccess` -/
  | grabPointer (root : Nat) (ok : Bool)
  /-- One call of `XGrabKeyboard` and whether it returned `GrabSuccess` -/
  | grabKeyboard (root : Nat) (ok : Bool)
  /-- The call `usleep(1000)` -/
  | usleep
  /-- The call `XSelectInput(dpy, root, SubstructureNotifyMask)` -/
  | selectInput (root : Nat)
  /-- The call `XUngrabPointer` -/
  | ungrabPointer
  /-- The call `XFreePixmap` -/
  | freePixmap (pmap : Nat)
  /-- The call `XDestroyWindow` -/
  | destroyWindow (win : Nat)
  /-- The call `free(lock)` of `unlockscreen` -/
  | freeLock (screen : Nat)
  /-- The call `XSync` -/
  | sync
  /-- The call `free(locks)` -/
  | freeLocks
  /-- The call `XCloseDisplay` -/
  | closeDisplay
  /-- The call `XNextEvent`, returning with an event -/
  | nextEvent
  /-- The call `crypt(key, salt)` of the credential verifier -/
  | crypt (key salt : List Nat)
  /-- The call `display_msg(dpy, win, msg)` -/
  | displayMsg (win : Nat) (msg : String)
  /-- The call `sleep(1)` -/
  | sleep
  /-- The call `XRaiseWindow` -/
  | raiseWindow (win : Nat)
deriving DecidableEq, Repr

/-- Accesses that C leaves undefined. -/
inductive Fault where
  /-- A write outside `char passwd[256]` -/
  | passwdOverflow
  /-- A read of `locks[i]` outside the allocated array -/
  | locksOutOfBounds
  /-- The access `lock->win` through a NULL `Lock *` -/
  | nullLock
  /-- The read of `strcmp` through the NULL that `crypt` returned -/
  | nullCrypt
deriving DecidableEq, Repr

/-- One `XEvent` as `readpw` sees it: a `KeyPress` together with what
`XLookupString` reports for it (the keysym and the `num` looked-up bytes
copied to `buf`), or an event of any other type. -/
inductive Event where
  | key (ksym : Nat) (buf : List Nat)
  | other
deriving DecidableEq, Repr

/-- The locals of `readpw` that live across loop iterations, and the global
`running`. -/
structure State where
  passwd : List Nat
  len : Nat
  pwmode : Bool
  running : Bool
deriving DecidableEq, Repr

/-- What `readpw` reads but does not change: its argument `pws`, the function
`crypt` (its result is `none` when `crypt` returns NULL, as it does on an
error such as a salt that it does not accept), and the globals `locks` and
`nscreens`. -/
structure Env where
  pws : List Nat
  crypt : List Nat → List Nat → Option (List Nat)
  locks : List (Option Lock)
  nscreens : Nat

/-- The size of `passwd`. -/
def passwdSize : Nat := 256

/-- The size of `buf`, the bound on what `XLookupString` copies. -/
def bufSize : Nat := 32

/-! ## `readpw` -/

/-- The expression `(*locks)->win`. -/
def headWin (env : Env) : Except Fault Nat :=
  match env.locks with
  | [] => .error .locksOutOfBounds
  | none :: _ => .error .nullLock
  | some lock :: _ => .ok lock.win

/-- The function `display_msg`: the text is cleared and redrawn on `win`.
(The lazily created graphics context is part of the outside world.) -/
def display_msg (win : Nat) (msg : String) : List Effect := [.displayMsg win msg]

/-- The keypad normalisation, lines 127-132. -/
def normKeysym (ksym : Nat) : Nat :=
  if IsKeypadKey ksym then
    if ksym = XK_KP_Enter then XK_Return
    else if XK_KP_0 ≤ ksym ∧ ksym ≤ XK_KP_9 then (ksym - XK_KP_0) + XK_0
    else ksym
  else ksym

/-- The filter of lines 133-136 (`continue` when it holds). -/
def ignoredKey (ksym : Nat) : Bool :=
  IsFunctionKey ksym || IsKeypadKey ksym || IsMiscFunctionKey ksym
    || IsPFKey ksym || IsPrivateKeypadKey ksym

/-- The case `XK_Return`, lines 138-159. -/
def onReturn (env : Env) (s : State) : Except Fault (State × List Effect) :=
  if !s.pwmode then .ok (s, [])
  else if s.len < passwdSize then
    let passwd := s.passwd.set s.len 0
    let key := cstr passwd
    match env.crypt key env.pws with
    | none => .error .nullCrypt
    | some hash =>
      let running := decide (strcmp hash env.pws ≠ 0)
      match headWin env with
      | .error f => .error f
      | .ok win =>
        .ok ({ passwd := passwd, len := 0, pwmode := false, running := running },
          [Effect.crypt key env.pws]
            ++ (if running then display_msg win "wrong password!" ++ [Effect.sleep] else [])
            ++ display_msg win "")
  else .error .passwdOverflow

/-- The case `XK_Escape`, lines 160-164. -/
def onEscape (env : Env) (s : State) : Except Fault (State × List Effect) :=
  match headWin env with
  | .error f => .error f
  | .ok win => .ok ({ s with pwmode := false, len := 0 }, display_msg win "")

/-- The case `XK_BackSpace`, lines 165-168. -/
def onBackSpace (s : State) : State :=
  if s.len ≠ 0 then { s with len := s.len - 1 } else s

/-- The guard of line 170. -/
def appendGuard (s : State) (buf : List Nat) : Bool :=
  decide (buf.length ≠ 0) && !iscntrl (buf.headD 0)
    && decide ((s.len + buf.length) % 2 ^ 32 < passwdSize)

/-- The array `passwd` after lines 171-173: the looked-up bytes copied at `len`
and the terminator written behind them. -/
def appendBuf (s : State) (buf : List Nat) : List Nat :=
  (memcpy s.passwd s.len buf).set ((s.len + buf.length) % 2 ^ 32) 0

/-- The `default` case, lines 169-183. -/
def onDefault (env : Env) (s : State) (buf : List Nat) : Except Fault (State × List Effect) :=
  if appendGuard s buf then
    if s.len + buf.length ≤ passwdSize then
      let len := (s.len + buf.length) % 2 ^ 32
      let passwd := appendBuf s buf
      if strcmp passwd pwLiteral = 0 then
        match headWin env with
        | .error f => .error f
        | .ok win =>
          .ok ({ s with passwd := passwd, len := 0, pwmode := true }, display_msg win "pw-mode")
      else .ok ({ s with passwd := passwd, len := len }, [])
    else .error .passwdOverflow
  else .ok (s, [])

/-- The loop of lines 186-187. -/
def raiseLoop (locks : List (Option Lock)) : Nat → Nat → Except Fault (List Effect)
  | 0, _ => .ok []
  | n + 1, screen =>
    match locks.get? screen with
    | none => .error .locksOutOfBounds
    | some none => .error .nullLock
    | some (some lock) =>
      match raiseLoop locks n (screen + 1) with
      | .error f => .error f
      | .ok tr => .ok (Effect.raiseWindow lock.win :: tr)

/-- One iteration of the loop body of `readpw`, lines 124-187. -/
def step (env : Env) (s : State) : Event → Except Fault (State × List Effect)
  | .other =>
    match raiseLoop env.locks env.nscreens 0 with
    | .error f => .error f
    | .ok tr => .ok (s, tr)
  | .key ksym0 buf =>
    let ksym := normKeysym ksym0
    if ignoredKey ksym then .ok (s, [])
    else if ksym = XK_Return then onReturn env s
    else if ksym = XK_Escape then onEscape env s
    else if ksym = XK_BackSpace then .ok (onBackSpace s, [])
    else onDefault env s buf

/-- The loop `while(running && !XNextEvent(dpy, &ev))`: the final state, the
trace and the events left unread.  A final state with `running = true` means
that the events ran out: the program is blocked in `XNextEvent`. -/
def readpwLoop (env : Env) : State → List Event → Except Fault (State × List Effect × List Event)
  | s, [] => .ok (s, [], [])
  | s, e :: es =>
    if s.running then
      match step env s e with
      | .error f => .error f
      | .ok (s1, fx) =>
        match readpwLoop env s1 es with
        | .error f => .error f
        | .ok (s2, tr, rest) => .ok (s2, Effect.nextEvent :: fx ++ tr, rest)
    else .ok (s, [], e :: es)

/-- The state after lines 114-117; `passwd0` is the indeterminate initial
content of the array `passwd`. -/
def initState (passwd0 : List Nat) : State :=
  { passwd := passwd0, len := 0, pwmode := false, running := true }

/-- The function `readpw`. -/
def readpw (env : Env) (passwd0 : List Nat) (events : List Event) :
    Except Fault (State × List Effect × List Event) :=
  readpwLoop env (initState passwd0) events

/-! ## `lockscreen`, `unlockscreen` -/

/-- The answers of the X server and of `malloc` that `lockscreen` depends on,
per screen: whether `malloc(sizeof(Lock))` succeeds, the identifiers of the
root window, of the created window and of the created bitmap, and the result
of the `attempt`-th call (counted from 0) of `XGrabPointer` and of
`XGrabKeyboard` made for that screen (`true` for `GrabSuccess`). -/
structure XEnv where
  mallocOk : Nat → Bool
  rootWindow : Nat → Nat
  newWindow : Nat → Nat
  newPixmap : Nat → Nat
  grabPointer : Nat → Nat → Bool
  grabKeyboard : Nat → Nat → Bool

/-- The function `unlockscreen` (`dpy` is never NULL at its call sites). -/
def unlockscreen : Option Lock → List Effect
  | none => []
  | some lock =>
    [Effect.ungrabPointer, Effect.freePixmap lock.pmap, Effect.destroyWindow lock.win,
      Effect.freeLock lock.screen]

/-- The retry loops of lines 235-240 and 242-247:
`for(len = 1000; len; len--) { if(grab() == GrabSuccess) break; usleep(1000); }`
started with the counter at `len`, the next call being the `attempt`-th.
The result is the final value of `len` and the calls made. -/
def grabLoop (grab : Nat → Bool) (call : Bool → Effect) : Nat → Nat → Nat × List Effect
  | 0, _ => (0, [])
  | len + 1, attempt =>
    if grab attempt then (len + 1, [call true])
    else
      let r := grabLoop grab call len (attempt + 1)
      (r.1, call false :: Effect.usleep :: r.2)

/-- The retry budget of both grab loops. -/
def grabBudget : Nat := 1000

/-- What a call of `lockscreen` leaves behind: the returned pointer (`none` for
NULL), the global `running`, and the calls made. -/
structure LockResult where
  lock : Option Lock
  running : Bool
  trace : List Effect

/-- The lock that `lockscreen` fills in for a screen. -/
def mkLock (x : XEnv) (screen : Nat) : Lock :=
  { screen := screen, root := x.rootWindow screen, win := x.newWindow screen,
    pmap := x.newPixmap screen }

/-- The calls of lines 227-234. -/
def setupTrace (lock : Lock) : List Effect :=
  [Effect.createWindow lock.screen lock.win, Effect.allocNamedColor lock.screen,
    Effect.createBitmap lock.win lock.pmap, Effect.createPixmapCursor lock.pmap,
    Effect.defineCursor lock.win, Effect.mapRaised lock.win]

/-- The function `lockscreen`, called with the global `running` as it stands
(`dpy` is not NULL and `screen` is not negative at its only call site). -/
def lockscreen (x : XEnv) (running : Bool) (screen : Nat) : LockResult :=
  if !x.mallocOk screen then { lock := none, running := running, trace := [] }
  else
    let lock := mkLock x screen
    let p := grabLoop (x.grabPointer screen) (Effect.grabPointer lock.root) grabBudget 0
    let k :=
      if running && decide (p.1 > 0) then
        grabLoop (x.grabKeyboard screen) (Effect.grabKeyboard lock.root) grabBudget 0
      else (p.1, [])
    let running1 := running && decide (k.1 > 0)
    if !running1 then
      { lock := none, running := running1,
        trace := setupTrace lock ++ p.2 ++ k.2 ++ unlockscreen (some lock) }
    else
      { lock := some lock, running := running1,
        trace := setupTrace lock ++ p.2 ++ k.2 ++ [Effect.selectInput lock.root] }

/-! ## `main` -/

/-- What the acquisition loop of lines 298-302 leaves behind: the array
`locks`, the counter `nlocks`, the global `running` and the calls made. -/
structure Acquired where
  locks : List (Option Lock)
  nlocks : Nat
  running : Bool
  trace : List Effect

/-- The loop of lines 299-302 with `n` screens left, the next one being
`screen`. -/
def acquireLoop (x : XEnv) : Nat → Nat → Bool → Acquired
  | 0, _, running => { locks := [], nlocks := 0, running := running, trace := [] }
  | n + 1, screen, running =>
    let r := lockscreen x running screen
    let rest := acquireLoop x n (screen + 1) r.running
    { locks := r.lock :: rest.locks,
      nlocks := (if r.lock.isSome then 1 else 0) + rest.nlocks,
      running := rest.running,
      trace := r.trace ++ rest.trace }

/-- The loop of lines 321-322 with `n` screens left, the next one being
`screen`. -/
def releaseLoop (locks : List (Option Lock)) : Nat → Nat → Except Fault (List Effect)
  | 0, _ => .ok []
  | n + 1, screen =>
    match locks.get? screen with
    | none => .error .locksOutOfBounds
    | some lock =>
      match releaseLoop locks n (screen + 1) with
      | .error f => .error f
      | .ok tr => .ok (unlockscreen lock ++ tr)

/-- How a run of the program ends: it exits with a status, it stays blocked
in `XNextEvent` because no further event arrives, or it performs an undefined
access. -/
inductive Outcome where
  | exit (status : Nat)
  | blocked
  | fault (f : Fault)
deriving DecidableEq, Repr

/-- The three ways in which `getpw` dies: no password entry, no shadow entry,
or the privileges cannot be dropped. -/
inductive GetpwFailure where
  | noPasswdEntry
  | noShadowEntry
  | cannotDropPrivileges
deriving DecidableEq, Repr

/-- The message of `die` in `getpw`, lines 56, 65 and 73. -/
def GetpwFailure.message : GetpwFailure → String
  | .noPasswdEntry => "slock: cannot retrieve password entry (make sure to suid or sgid slock)"
  | .noShadowEntry => "slock: cannot retrieve shadow entry (make sure to suid or sgid slock)\n"
  | .cannotDropPrivileges => "slock: cannot drop privileges"

/-- Everything a run of `main` depends on: the command line (`argc`, and
whether `argv[1]` is `"-v"`), whether `getpwuid` finds an entry, the hash that
`getpw` returns (`none` when `getpw` dies), whether `XOpenDisplay` and the
`malloc` of `locks` succeed, `ScreenCount`, the answers of the X server, the
function `crypt`, the indeterminate initial content of `passwd`, and the
events that `XNextEvent` delivers; and for the messages of `die`, the way in
which `getpw` fails when it does and the text of `strerror(errno)`. -/
structure World where
  argc : Nat
  argv1IsV : Bool
  hasPwEntry : Bool
  getpw : Option (List Nat)
  getpwFailure : GetpwFailure
  displayOpens : Bool
  locksAllocOk : Bool
  strerror : String
  nscreens : Nat
  x : XEnv
  crypt : List Nat → List Nat → Option (List Nat)
  passwd0 : List Nat
  events : List Event

/-- The value of `EXIT_FAILURE`. -/
def EXIT_FAILURE : Nat := 1

/-- The function `die`: the message goes to stderr, the process exits with
`EXIT_FAILURE`. -/
def die (msg : String) : Outcome × List Effect := (.exit EXIT_FAILURE, [.stderr msg])

/-- The function `usage`. -/
def usage : Outcome × List Effect := (.exit EXIT_FAILURE, [.stderr "usage: slock [-v]\n"])

/-- The environment of the call `readpw(dpy, pws)` in `main`. -/
def readpwEnv (w : World) (pws : List Nat) (locks : List (Option Lock)) : Env :=
  { pws := pws, crypt := w.crypt, locks := locks, nscreens := w.nscreens }

/-- Lines 298-327 of `main`, from the acquisition loop on. -/
def mainLocked (w : World) (pws : List Nat) : Outcome × List Effect :=
  let a := acquireLoop w.x w.nscreens 0 true
  if a.nlocks = 0 then
    (.exit 1, a.trace ++ [Effect.sync, Effect.freeLocks, Effect.closeDisplay])
  else
    match readpw (readpwEnv w pws a.locks) w.passwd0 w.events with
    | .error f => (.fault f, a.trace ++ [Effect.sync])
    | .ok (s, tr, _) =>
      if s.running then (.blocked, a.trace ++ [Effect.sync] ++ tr)
      else
        match releaseLoop a.locks w.nscreens 0 with
        | .error f => (.fault f, a.trace ++ [Effect.sync] ++ tr)
        | .ok rel =>
          (.exit 0, a.trace ++ [Effect.sync] ++ tr ++ rel
            ++ [Effect.freeLocks, Effect.closeDisplay])

/-- The function `main`. -/
def main (w : World) : Outcome × List Effect :=
  if w.argc = 2 ∧ w.argv1IsV then
    die "slock-1.1-orium, Â© 2006-2013 Anselm R Garbe, Diogo Sousa (orium)\n"
  else if w.argc ≠ 1 then usage
  else if !w.hasPwEntry then die "slock: no passwd entry for you"
  else
    match w.getpw with
    | none => die w.getpwFailure.message
    | some pws =>
      if !w.displayOpens then die "slock: cannot open display"
      else if !w.locksAllocOk then die ("slock: malloc: " ++ w.strerror)
      else mainLocked w pws

/-! ## Notions used by the statements -/

/-- A key event gets to the `default` case of the switch: after the keypad
normalisation its keysym is not filtered out and is none of `XK_Return`,
`XK_Escape`, `XK_BackSpace`. -/
def reachesDefault (ksym0 : Nat) : Bool :=
  let ksym := normKeysym ksym0
  !ignoredKey ksym && ksym != XK_Return && ksym != XK_Escape && ksym != XK_BackSpace

/-- The candidate that the `XK_Return` case hands to `crypt`: the C string in
`passwd` once `passwd[len] = 0` is written. -/
def candidate (s : State) : List Nat := cstr (s.passwd.set s.len 0)

/-- The Credential Verifier in the words of the specification (local
comparison): the transform of the candidate, computed with the stored hash as
salt, equals the stored hash byte for byte; a transform that fails is a
rejection. -/
def verifierAccepts (env : Env) (cand : List Nat) : Bool :=
  match env.crypt cand env.pws with
  | some hash => decide (cstr hash = cstr env.pws)
  | none => false

/-- An event is one that `XLookupString(&ev.xkey, buf, sizeof buf, ...)` can
produce: at most `sizeof buf` looked-up bytes. -/
def Event.wf : Event → Prop
  | .key _ buf => buf.length ≤ bufSize
  | .other => True

instance (e : Event) : Decidable e.wf := by
  cases e <;> unfold Event.wf <;> infer_instance

/-- The state invariant of the loop: `len` is an index into `passwd`, an array
of 256 bytes. -/
def State.inv (s : State) : Prop := s.len < passwdSize ∧ s.passwd.length = passwdSize

/-- The event is a key event that reaches the append branch in state `s`, the
append is performed, and right after it the buffer is the C string `"pw"`. -/
def sentinelTyped (s : State) : Event → Bool
  | .key ksym buf =>
    reachesDefault ksym && appendGuard s buf && decide (cstr (appendBuf s buf) = pwLiteral)
  | .other => false

/-- Along the run of the loop from state `s` over the events `evs`, the buffer
is never the C string `"pw"` right after an append. -/
def sentinelNeverTyped (env : Env) : State → List Event → Bool
  | _, [] => true
  | s, e :: es =>
    !sentinelTyped s e
    && (match step env s e with
      | .ok (s1, _) => sentinelNeverTyped env s1 es
      | .error _ => true)

/-- A run of `main` got past the start-up checks of lines 276-295 with the
hash `pws`. -/
def World.started (w : World) (pws : List Nat) : Prop :=
  w.argc = 1 ∧ w.hasPwEntry = true ∧ w.getpw = some pws ∧ w.displayOpens = true
    ∧ w.locksAllocOk = true

/-- The calls that only `readpw` makes. -/
def Effect.fromReadpw : Effect → Bool
  | .nextEvent => true
  | .crypt _ _ => true
  | .displayMsg _ _ => true
  | .sleep => true
  | .raiseWindow _ => true
  | _ => false

/-- The windows that exist after a call, given those that existed before. -/
def trackWindow (acc : List Nat) : Effect → List Nat
  | .createWindow _ win => win :: acc
  | .destroyWindow win => acc.erase win
  | _ => acc

/-- The windows created and not destroyed by a trace. -/
def openWindows (tr : List Effect) : List Nat := tr.foldl trackWindow []

/-! ## Sample inputs -/

deriving instance DecidableEq for Except

/-- A stored hash `"$1"` and a `crypt` that maps the key `"s"` to it. -/
def sampleEnv : Env :=
  { pws := [36, 49],
    crypt := fun key _ => if key = [115] then some [36, 49] else some [42],
    locks := [some { screen := 0, root := 10, win := 20, pmap := 30 }],
    nscreens := 1 }

/-- An initial content of `passwd`. -/
def samplePasswd : List Nat := List.replicate 256 7

/-- A key event for a printable ASCII character. -/
def keyOf (c : Nat) : Event := .key c [c]

/-- A state in password mode whose buffer holds `cand`. -/
def armedState (cand : List Nat) : State :=
  { passwd := cand ++ List.replicate (256 - cand.length) 7, len := cand.length,
    pwmode := true, running := true }

/-- A state not in password mode whose buffer holds `content`. -/
def bufferingState (content : List Nat) : State :=
  { passwd := content ++ List.replicate (256 - content.length) 7, len := content.length,
    pwmode := false, running := true }

/-- Ten key events of 32 looked-up bytes each: more than `passwd` holds. -/
def fillEvents : List Event := List.replicate 10 (.key 97 (List.replicate 32 97))

/-- An X server on which every grab succeeds at the third attempt. -/
def sampleX : XEnv :=
  { mallocOk := fun _ => true,
    rootWindow := fun i => 10 + i,
    newWindow := fun i => 20 + i,
    newPixmap := fun i => 30 + i,
    grabPointer := fun _ k => decide (2 ≤ k),
    grabKeyboard := fun _ k => decide (2 ≤ k) }

/-- An X server on which no keyboard grab ever succeeds. -/
def busyX : XEnv := { sampleX with grabKeyboard := fun _ _ => false }

/-- A run on two screens: `p`, `w`, then `s` and Return. -/
def sampleWorld : World :=
  { argc := 1, argv1IsV := false, hasPwEntry := true, getpw := some [36, 49],
    getpwFailure := .noPasswdEntry, displayOpens := true, locksAllocOk := true,
    strerror := "Cannot allocate memory", nscreens := 2, x := sampleX,
    crypt := sampleEnv.crypt, passwd0 := samplePasswd,
    events := [keyOf 112, keyOf 119, keyOf 115, .key XK_Return [13]] }

/-- A world in which no keyboard grab ever succeeds. -/
def busyWorld : World := { sampleWorld with x := busyX }

/-! ## Further notions and sample inputs -/

def XK_ISO_Lock : Nat := 0xfe01
def XK_ISO_Level5_Lock : Nat := 0xfe13
def XK_Mode_switch : Nat := 0xff7e
def XK_Num_Lock : Nat := 0xff7f
def XK_Shift_L : Nat := 0xffe1
def XK_Hyper_R : Nat := 0xffee

/-- The modifier class of `X11/Xutil.h` (with `XK_XKB_KEYS` defined, as
`X11/keysym.h` does).  The function `readpw` never tests it. -/
def IsModifierKey (keysym : Nat) : Bool :=
  (decide (XK_Shift_L ≤ keysym) && decide (keysym ≤ XK_Hyper_R))
    || (decide (XK_ISO_Lock ≤ keysym) && decide (keysym ≤ XK_ISO_Level5_Lock))
    || decide (keysym = XK_Mode_switch)
    || decide (keysym = XK_Num_Lock)

/-- What `XLookupString` reports for a key press: at most `sizeof buf` bytes,
and no byte at all for a keysym of modifier class.  The looked-up string is
the translation of the keysym, a modifier keysym has none, and the program
never calls `XRebindKeysym`, the one way to give it one. -/
def Event.fromLookup : Event → Prop
  | .key ksym buf => buf.length ≤ bufSize ∧ (IsModifierKey ksym = true → buf = [])
  | .other => True

/-- The screens whose `Lock` a trace frees, in the order of the calls. -/
def releasedScreens (tr : List Effect) : List Nat :=
  tr.filterMap (fun e => match e with
    | .freeLock screen => some screen
    | _ => none)

/-- The windows that a trace destroys, in the order of the calls. -/
def destroyedWindows (tr : List Effect) : List Nat :=
  tr.filterMap (fun e => match e with
    | .destroyWindow win => some win
    | _ => none)

/-- The pixmaps that a trace frees, in the order of the calls. -/
def freedPixmaps (tr : List Effect) : List Nat :=
  tr.filterMap (fun e => match e with
    | .freePixmap pmap => some pmap
    | _ => none)

/-- The Heads present in a LockSet, in slot order. -/
def presentLocks (locks : List (Option Lock)) : List Lock := locks.filterMap id

/-- While the buffer is not empty, the array `passwd` does not read as the C
string `"pw"`. -/
def State.noStalePw (s : State) : Prop := 0 < s.len → cstr s.passwd ≠ pwLiteral

/-- A key event delivers at most one looked-up byte. -/
def Event.oneByte : Event → Prop
  | .key _ buf => buf.length ≤ 1
  | .other => True

instance (e : Event) : Decidable e.oneByte := by
  cases e <;> unfold Event.oneByte <;> infer_instance

/-- With two or more bytes in the buffer, the first two are not `"pw"`. -/
def State.noPwHead (s : State) : Prop := 2 ≤ s.len → s.passwd.take 2 ≠ pwLiteral

/-- The first attempt, counted from 0, at which a grab succeeds within the
retry budget, if there is one. -/
def firstSuccess (grab : Nat → Bool) : Option Nat := (List.range grabBudget).find? grab

/-- A grab succeeds within the retry budget. -/
def succeeds (grab : Nat → Bool) : Bool := (firstSuccess grab).isSome

/-- The bounded-retry policy in the words of the specification: attempt the
grab up to 1000 times with a delay of 1 ms after each failure, stopping at the
first success. -/
def grabCalls (grab : Nat → Bool) (call : Bool → Effect) : List Effect :=
  match firstSuccess grab with
  | some k => (List.replicate k [call false, Effect.usleep]).flatten ++ [call true]
  | none => (List.replicate grabBudget [call false, Effect.usleep]).flatten

/-- The number of calls of a grab made under the bounded-retry policy. -/
def attemptsMade (grab : Nat → Bool) : Nat :=
  match firstSuccess grab with
  | some k => k + 1
  | none => grabBudget

/-- The number of calls of `XGrabPointer` in a trace. -/
def pointerAttempts (tr : List Effect) : Nat :=
  tr.countP (fun e => match e with
    | .grabPointer _ _ => true
    | _ => false)

/-- The number of calls of `XGrabKeyboard` in a trace. -/
def keyboardAttempts (tr : List Effect) : Nat :=
  tr.countP (fun e => match e with
    | .grabKeyboard _ _ => true
    | _ => false)

/-- The pointer grab and the keyboard grab of a screen both succeed within
their retry budgets. -/
def grabsOk (x : XEnv) (screen : Nat) : Bool :=
  succeeds (x.grabPointer screen) && succeeds (x.grabKeyboard screen)

/-- An X server on which the keyboard grab of screen 1 never succeeds; every
other grab succeeds at the third attempt. -/
def partialX : XEnv := { sampleX with grabKeyboard := fun i k => decide (i ≠ 1) && decide (2 ≤ k) }

/-- An X server on which the keyboard grab of screen 0 never succeeds; every
other grab succeeds at the third attempt. -/
def firstBusyX : XEnv :=
  { sampleX with grabKeyboard := fun i k => decide (i ≠ 0) && decide (2 ≤ k) }

/-- A run on two screens of which only screen 0 can be acquired, with one
event that is not a key press. -/
def partialWorld : World := { sampleWorld with x := partialX, events := [.other] }

/-- The keys `p`, `w`, again `p`, `w`, then `x`, `p`, `w` and Return, one
looked-up byte each. -/
def rearmEvents : List Event :=
  [keyOf 112, keyOf 119, keyOf 112, keyOf 119, keyOf 120, keyOf 112, keyOf 119,
    .key XK_Return [13]]

/-- A stored hash `"!"`, as a locked account has it: a salt for which `crypt`
returns NULL. -/
def lockedEnv : Env := { sampleEnv with pws := [33], crypt := fun _ _ => none }

/-- A run against the stored hash `"!"`: `p`, `w`, then `x` and Return. -/
def lockedWorld : World :=
  { sampleWorld with
    getpw := some [33], crypt := fun _ _ => none,
    events := [keyOf 112, keyOf 119, keyOf 120, .key XK_Return [13]] }

/-- An X server and allocator on which `malloc(sizeof(Lock))` fails for
screen 0 only; every grab succeeds at the third attempt. -/
def mallocFailX : XEnv := { sampleX with mallocOk := fun i => decide (i ≠ 0) }

/-- A run on two screens in which the allocation for screen 0 fails, with the
Escape key as its one event. -/
def mallocFailWorld : World :=
  { sampleWorld with x := mallocFailX, events := [.key XK_Escape [27]] }

/-! ## Lemmas on the helpers -/

set_option maxRecDepth 100000

theorem cstr_nil : cstr [] = [] := rfl

theorem cstr_cons (a : Nat) (as : List Nat) :
    cstr (a :: as) = if a = 0 then [] else a :: cstr as := by
  by_cases ha : a = 0 <;> simp [cstr, List.takeWhile_cons, ha]

/-- The function `strcmp` returns 0 exactly on equal C strings. -/
theorem strcmp_eq_zero_iff (a b : List Nat) : strcmp a b = 0 ↔ cstr a = cstr b := by
  induction a generalizing b with
  | nil =>
    cases b with
    | nil => simp [strcmp]
    | cons b bs =>
      by_cases hb : b = 0 <;> simp [strcmp, cstr_nil, cstr_cons, hb]
  | cons a as ih =>
    cases b with
    | nil =>
      by_cases ha : a = 0 <;> simp [strcmp, cstr_nil, cstr_cons, ha]
    | cons b bs =>
      by_cases hab : a = b
      · subst hab
        by_cases ha : a = 0
        · simp [strcmp, cstr_cons, ha]
        · simp [strcmp, cstr_cons, ha, ih bs]
      · have hne : (a : Int) - (b : Int) ≠ 0 := by omega
        by_cases ha : a = 0
        · have hb : b ≠ 0 := fun h => hab (ha.trans h.symm)
          simp [strcmp, cstr_cons, ha, hb, hab, hne]
          omega
        · by_cases hb : b = 0
          · simp [strcmp, cstr_cons, ha, hb, hab, hne]
          · simp [strcmp, cstr_cons, ha, hb, hab, hne]

theorem cstr_pwLiteral : cstr pwLiteral = pwLiteral := by decide

/-- A key that reaches the `default` case is handled by `onDefault`. -/
theorem step_default (env : Env) (s : State) (ksym : Nat) (buf : List Nat)
    (hk : reachesDefault ksym = true) :
    step env s (.key ksym buf) = onDefault env s buf := by
  simp only [reachesDefault, Bool.and_eq_true, Bool.not_eq_true', bne_iff_ne, ne_eq] at hk
  obtain ⟨⟨⟨h1, h2⟩, h3⟩, h4⟩ := hk
  simp [step, h1, h2, h3, h4]

/-- With `len` inside the buffer and at most `sizeof buf` looked-up bytes, the
guard of line 170 keeps the copy and the terminator inside `passwd`. -/
theorem appendGuard_bound (s : State) (buf : List Nat) (hlen : s.len < passwdSize)
    (hbuf : buf.length ≤ bufSize) (hg : appendGuard s buf = true) :
    s.len + buf.length < passwdSize ∧ (s.len + buf.length) % 2 ^ 32 = s.len + buf.length := by
  have hno : s.len + buf.length < 2 ^ 32 := by
    simp only [passwdSize, bufSize] at hlen hbuf
    omega
  simp only [appendGuard, Bool.and_eq_true, decide_eq_true_eq] at hg
  rw [Nat.mod_eq_of_lt hno] at hg
  exact ⟨hg.2, Nat.mod_eq_of_lt hno⟩

/-! ## The input state machine, one event at a time -/

/-- A Return in password mode when `crypt` returns a string (with `len` inside
the buffer and the first Head present), keypad Enter included: if the
verifier accepts the buffered candidate, that is if the string equals `pws`,
then `running` becomes false, with `len = 0` and `pwmode = false`; otherwise
the message "wrong password!" is displayed, `running` stays true and the
machine is back in Idle (`len = 0`, `pwmode = false`). -/
theorem return_when_crypt_answers (env : Env) (s : State) (ksym : Nat) (buf : List Nat)
    (win : Nat) (hash : List Nat)
    (hk : normKeysym ksym = XK_Return) (hp : s.pwmode = true) (hlen : s.len < passwdSize)
    (hw : headWin env = .ok win) (hc : env.crypt (candidate s) env.pws = some hash) :
    step env s (.key ksym buf) =
      .ok (if verifierAccepts env (candidate s) then
          ({ passwd := s.passwd.set s.len 0, len := 0, pwmode := false, running := false },
            [Effect.crypt (candidate s) env.pws, Effect.displayMsg win ""])
        else
          ({ passwd := s.passwd.set s.len 0, len := 0, pwmode := false, running := true },
            [Effect.crypt (candidate s) env.pws, Effect.displayMsg win "wrong password!",
              Effect.sleep, Effect.displayMsg win ""])) := by
  have h2 : ignoredKey XK_Return = false := by decide
  have hc1 : env.crypt (cstr (s.passwd.set s.len 0)) env.pws = some hash := hc
  by_cases hacc : cstr hash = cstr env.pws
  · have h0 : strcmp hash env.pws = 0 := (strcmp_eq_zero_iff _ _).2 hacc
    simp [step, hk, h2, onReturn, hp, hlen, hw, display_msg, verifierAccepts, candidate, hc1,
      h0, hacc]
  · have h0 : strcmp hash env.pws ≠ 0 := fun h => hacc ((strcmp_eq_zero_iff _ _).1 h)
    simp [step, hk, h2, onReturn, hp, hlen, hw, display_msg, verifierAccepts, candidate, hc1,
      h0, hacc]

theorem return_when_crypt_answers_witness :
    step sampleEnv (armedState [115]) (.key XK_KP_Enter [13])
        = .ok ({ passwd := (armedState [115]).passwd.set 1 0, len := 0, pwmode := false,
                 running := false },
            [Effect.crypt [115] [36, 49], Effect.displayMsg 20 ""])
    ∧ step sampleEnv (armedState [120]) (.key XK_Return [13])
        = .ok ({ passwd := (armedState [120]).passwd.set 1 0, len := 0, pwmode := false,
                 running := true },
            [Effect.crypt [120] [36, 49], Effect.displayMsg 20 "wrong password!",
              Effect.sleep, Effect.displayMsg 20 ""]) := by
  constructor
  · rw [return_when_crypt_answers sampleEnv (armedState [115]) XK_KP_Enter [13] 20 [36, 49]
      (by decide) (by decide) (by decide) (by decide) (by decide)]
    decide
  · rw [return_when_crypt_answers sampleEnv (armedState [120]) XK_Return [13] 20 [42]
      (by decide) (by decide) (by decide) (by decide) (by decide)]
    decide

/-- A Return in password mode when `crypt` returns NULL (with `len` inside the
buffer): line 146 hands the NULL to `strcmp`, an undefined access; no message
is displayed and no state follows. -/
theorem return_when_crypt_fails (env : Env) (s : State) (ksym : Nat) (buf : List Nat)
    (hk : normKeysym ksym = XK_Return) (hp : s.pwmode = true) (hlen : s.len < passwdSize)
    (hc : env.crypt (candidate s) env.pws = none) :
    step env s (.key ksym buf) = .error .nullCrypt := by
  have h2 : ignoredKey XK_Return = false := by decide
  have hc1 : env.crypt (cstr (s.passwd.set s.len 0)) env.pws = none := hc
  simp [step, hk, h2, onReturn, hp, hlen, hc1]

theorem return_when_crypt_fails_witness :
    step lockedEnv (armedState [120]) (.key XK_KP_Enter [13]) = .error .nullCrypt :=
  return_when_crypt_fails lockedEnv (armedState [120]) XK_KP_Enter [13]
    (by decide) (by decide) (by decide) (by decide)

/-- Claim C3, the failing run.  The stored hash is `"!"`, a salt for which
`crypt` returns NULL.  In password mode with the candidate `"x"` buffered, a
Return event has neither of the two outcomes of the claim: `strcmp` reads
through the NULL, no rejection is displayed and `running` is not kept.  The
run of `main` over `p`, `w`, `x`, Return ends in the same undefined access
(while the same keys against a `crypt` that answers are rejected with the
message "wrong password!"). -/
theorem return_reads_null_crypt :
    lockedEnv.crypt (candidate (armedState [120])) lockedEnv.pws = none
    ∧ step lockedEnv (armedState [120]) (.key XK_Return [13]) = .error .nullCrypt
    ∧ (main lockedWorld).1 = .fault .nullCrypt
    ∧ step sampleEnv (armedState [120]) (.key XK_Return [13])
        = .ok ({ passwd := (armedState [120]).passwd.set 1 0, len := 0, pwmode := false,
                 running := true },
            [Effect.crypt [120] [36, 49], Effect.displayMsg 20 "wrong password!",
              Effect.sleep, Effect.displayMsg 20 ""]) := by
  refine ⟨by decide, by decide, by decide, by decide⟩

/-- Claim C4 as stated fails.  With `"ap"` in the buffer, typing `w` is a
successful append after which the buffer contents `"apw"` end in `"pw"`, yet
`pwmode` stays false and `len` becomes 3: `strcmp(passwd, "pw")` compares the
whole buffer.  The same happens on the run `a`, `p`, `w` from the initial
state. -/
theorem sentinel_suffix_counterexample :
    step sampleEnv (bufferingState [97, 112]) (keyOf 119)
        = .ok ({ passwd := [97, 112, 119, 0] ++ List.replicate 252 7, len := 3,
                 pwmode := false, running := true }, [])
    ∧ pwLiteral <:+ ([97, 112, 119, 0] ++ List.replicate 252 7).take 3
    ∧ readpw sampleEnv samplePasswd [keyOf 97, keyOf 112, keyOf 119]
        = .ok ({ passwd := [97, 112, 119, 0] ++ List.replicate 252 7, len := 3,
                 pwmode := false, running := true },
            [Effect.nextEvent, Effect.nextEvent, Effect.nextEvent], []) := by
  refine ⟨by decide, by decide, by decide⟩

/-- Claim C4, amended.  In every state (with `len` inside the buffer and the
first Head present), for every key event that reaches the append branch with
at most `sizeof buf` looked-up bytes: if the append is performed and the whole
buffer, read as a C string from its first byte, is then exactly `"pw"`, the
step sets `pwmode`, resets `len` to 0 and displays "pw-mode". -/
theorem sentinel_whole_buffer (env : Env) (s : State) (ksym : Nat) (buf : List Nat) (win : Nat)
    (hk : reachesDefault ksym = true) (hlen : s.len < passwdSize)
    (hbuf : buf.length ≤ bufSize) (hg : appendGuard s buf = true)
    (hw : headWin env = .ok win) (hpw : cstr (appendBuf s buf) = pwLiteral) :
    step env s (.key ksym buf)
      = .ok ({ s with passwd := appendBuf s buf, len := 0, pwmode := true },
          [Effect.displayMsg win "pw-mode"]) := by
  rw [step_default env s ksym buf hk]
  have hb := (appendGuard_bound s buf hlen hbuf hg).1
  have h0 : strcmp (appendBuf s buf) pwLiteral = 0 :=
    (strcmp_eq_zero_iff _ _).2 (hpw.trans cstr_pwLiteral.symm)
  simp [onDefault, hg, Nat.le_of_lt hb, h0, hw, display_msg]

theorem sentinel_whole_buffer_witness :
    step sampleEnv (bufferingState [112]) (keyOf 119)
      = .ok ({ passwd := [112, 119, 0] ++ List.replicate 253 7, len := 0, pwmode := true,
               running := true }, [Effect.displayMsg 20 "pw-mode"]) := by
  rw [keyOf, sentinel_whole_buffer sampleEnv (bufferingState [112]) 119 [119] 20
    (by decide) (by decide) (by decide) (by decide) (by decide) (by decide)]
  decide

/-- Claim C5.  For every state and every key event that reaches the append
branch with `num` looked-up bytes: if `len + num >= 256` (the sum being
representable in `unsigned int`, as it is whenever `len` is inside the
buffer), the append is rejected as a whole: the buffer bytes, `len`, `pwmode`
and `running` are unchanged and nothing is displayed. -/
theorem append_rejected_at_capacity (env : Env) (s : State) (ksym : Nat) (buf : List Nat)
    (hk : reachesDefault ksym = true)
    (hno : s.len + buf.length < 2 ^ 32) (h : passwdSize ≤ s.len + buf.length) :
    step env s (.key ksym buf) = .ok (s, []) := by
  rw [step_default env s ksym buf hk]
  have hg : appendGuard s buf = false := by
    simp only [appendGuard, Bool.and_eq_false_imp]
    intro _
    rw [Nat.mod_eq_of_lt hno]
    simpa using h
  simp [onDefault, hg]

theorem append_rejected_at_capacity_witness :
    passwdSize ≤ (bufferingState (List.replicate 254 97)).len + [98, 99].length
    ∧ step sampleEnv (bufferingState (List.replicate 254 97)) (.key 98 [98, 99])
        = .ok (bufferingState (List.replicate 254 97), []) :=
  ⟨by decide,
    append_rejected_at_capacity sampleEnv (bufferingState (List.replicate 254 97)) 98 [98, 99]
      (by decide) (by decide) (by decide)⟩

/-- Claim C7.  For every state (any `len`, any buffer contents, `pwmode` true or
false), with the first Head present, an Escape key event yields the Idle
state: `pwmode = false` and `len = 0`; the buffer bytes and `running` are
unchanged and the status line is cleared. -/
theorem escape_to_idle (env : Env) (s : State) (buf : List Nat) (win : Nat)
    (hw : headWin env = .ok win) :
    step env s (.key XK_Escape buf)
      = .ok ({ s with pwmode := false, len := 0 }, [Effect.displayMsg win ""]) := by
  have h1 : normKeysym XK_Escape = XK_Escape := by decide
  have h2 : ignoredKey XK_Escape = false := by decide
  have h3 : XK_Escape ≠ XK_Return := by decide
  simp [step, h1, h2, h3, onEscape, hw, display_msg]

theorem escape_to_idle_witness :
    step sampleEnv (armedState [97, 98, 99]) (.key XK_Escape [27])
      = .ok ({ passwd := (armedState [97, 98, 99]).passwd, len := 0, pwmode := false,
               running := true }, [Effect.displayMsg 20 ""]) :=
  escape_to_idle sampleEnv (armedState [97, 98, 99]) [27] 20 (by decide)

/-- Claim C8.  For every state, a BackSpace key event with `len = 0` leaves the
state unchanged, and with `len > 0` sets `len` to `len - 1`, leaving the
buffer bytes, `pwmode` and `running` unchanged. -/
theorem backspace_step (env : Env) (s : State) (buf : List Nat) :
    (s.len = 0 → step env s (.key XK_BackSpace buf) = .ok (s, []))
    ∧ (0 < s.len →
        step env s (.key XK_BackSpace buf)
          = .ok ({ passwd := s.passwd, len := s.len - 1, pwmode := s.pwmode,
                   running := s.running }, [])) := by
  have h1 : normKeysym XK_BackSpace = XK_BackSpace := by decide
  have h2 : ignoredKey XK_BackSpace = false := by decide
  have h3 : XK_BackSpace ≠ XK_Return := by decide
  have h4 : XK_BackSpace ≠ XK_Escape := by decide
  constructor
  · intro h
    simp [step, h1, h2, h3, h4, onBackSpace, h]
  · intro h
    have : s.len ≠ 0 := by omega
    simp [step, h1, h2, h3, h4, onBackSpace, this]

theorem backspace_step_witness :
    step sampleEnv (bufferingState []) (.key XK_BackSpace [8]) = .ok (bufferingState [], [])
    ∧ step sampleEnv (armedState [97, 98]) (.key XK_BackSpace [8])
        = .ok ({ passwd := (armedState [97, 98]).passwd, len := 1, pwmode := true,
                 running := true }, []) :=
  ⟨(backspace_step sampleEnv (bufferingState []) [8]).1 (by decide),
    (backspace_step sampleEnv (armedState [97, 98]) [8]).2 (by decide)⟩

/-! ## The input loop -/

/-- The calls of the re-raise loop are `XRaiseWindow` calls only. -/
theorem raiseLoop_trace (locks : List (Option Lock)) (n screen : Nat) (tr : List Effect)
    (h : raiseLoop locks n screen = .ok tr) : ∀ e ∈ tr, ∃ win, e = Effect.raiseWindow win := by
  induction n generalizing screen tr with
  | zero =>
    simp only [raiseLoop, Except.ok.injEq] at h
    subst h
    simp
  | succ n ih =>
    simp only [raiseLoop] at h
    split at h
    · cases h
    · cases h
    · rename_i lock _
      split at h
      · cases h
      · rename_i tr1 h1
        simp only [Except.ok.injEq] at h
        subst h
        intro e he
        rcases List.mem_cons.1 he with rfl | he
        · exact ⟨lock.win, rfl⟩
        · exact ih _ _ h1 e he

/-- A loop entered with `running` false returns at once. -/
theorem readpwLoop_stopped (env : Env) (s : State) (evs : List Event)
    (h : s.running = false) : readpwLoop env s evs = .ok (s, [], evs) := by
  cases evs <;> simp [readpwLoop, h]

/-- One iteration of a loop entered with `running` true. -/
theorem readpwLoop_cons (env : Env) (s : State) (e : Event) (es : List Event)
    (h : s.running = true) :
    readpwLoop env s (e :: es) =
      match step env s e with
      | .error f => .error f
      | .ok (s1, fx) =>
        match readpwLoop env s1 es with
        | .error f => .error f
        | .ok (s2, tr, rest) => .ok (s2, Effect.nextEvent :: fx ++ tr, rest) := by
  simp [readpwLoop, h]

/-- The only step that clears `running` is a Return, keypad Enter included,
in password mode on a candidate that the verifier accepts. -/
theorem step_stops (env : Env) (s s1 : State) (e : Event) (fx : List Effect)
    (h : step env s e = .ok (s1, fx)) (hr : s.running = true) (hs : s1.running = false) :
    ∃ ksym buf, e = .key ksym buf ∧ normKeysym ksym = XK_Return ∧ s.pwmode = true
      ∧ s.len < passwdSize ∧ verifierAccepts env (candidate s) = true
      ∧ Effect.crypt (candidate s) env.pws ∈ fx := by
  cases e with
  | other =>
    simp only [step] at h
    split at h
    · cases h
    · simp only [Except.ok.injEq, Prod.mk.injEq] at h
      rw [← h.1, hr] at hs
      cases hs
  | key ksym buf =>
    simp only [step] at h
    split_ifs at h with h1 h2 h3 h4
    · simp only [Except.ok.injEq, Prod.mk.injEq] at h
      rw [← h.1, hr] at hs
      cases hs
    · refine ⟨ksym, buf, rfl, h2, ?_⟩
      cases hp : s.pwmode with
      | false =>
        simp only [onReturn, hp, Bool.not_false, if_true, Except.ok.injEq, Prod.mk.injEq] at h
        rw [← h.1, hr] at hs
        cases hs
      | true =>
        by_cases hl : s.len < passwdSize
        · cases hc : env.crypt (cstr (s.passwd.set s.len 0)) env.pws with
          | none => simp [onReturn, hp, hl, hc] at h
          | some hash =>
            cases hw : headWin env with
            | error f => simp [onReturn, hp, hl, hc, hw] at h
            | ok win =>
              simp only [onReturn, hp, hl, hc, hw, Bool.not_true, if_true, Except.ok.injEq,
                Prod.mk.injEq] at h
              obtain ⟨rfl, rfl⟩ := h
              simp only [decide_eq_false_iff_not, ne_eq, not_not] at hs
              have hacc := (strcmp_eq_zero_iff _ _).1 hs
              refine ⟨rfl, hl, ?_, ?_⟩
              · simp [verifierAccepts, candidate, hc, hacc]
              · simp [candidate]
        · simp [onReturn, hp, hl] at h
    · simp only [onEscape] at h
      split at h
      · cases h
      · simp only [Except.ok.injEq, Prod.mk.injEq] at h
        rw [← h.1] at hs
        simp only at hs
        rw [hr] at hs
        cases hs
    · simp only [Except.ok.injEq, Prod.mk.injEq] at h
      rw [← h.1] at hs
      simp only [onBackSpace] at hs
      split_ifs at hs <;> simp_all
    · simp only [onDefault] at h
      split_ifs at h with hg hb h0
      · split at h
        · cases h
        · simp only [Except.ok.injEq, Prod.mk.injEq] at h
          rw [← h.1] at hs
          simp only at hs
          rw [hr] at hs
          cases hs
      · simp only [Except.ok.injEq, Prod.mk.injEq] at h
        rw [← h.1] at hs
        simp only at hs
        rw [hr] at hs
        cases hs
      · simp only [Except.ok.injEq, Prod.mk.injEq] at h
        rw [← h.1, hr] at hs
        cases hs


theorem readpwLoop_stops (env : Env) (evs : List Event) :
    ∀ (s s2 : State) (tr : List Effect) (rest : List Event),
      readpwLoop env s evs = .ok (s2, tr, rest) → s.running = true → s2.running = false →
      ∃ pre ksym buf s1 tr1,
        evs = pre ++ Event.key ksym buf :: rest
        ∧ readpwLoop env s pre = .ok (s1, tr1, [])
        ∧ s1.running = true ∧ s1.pwmode = true ∧ normKeysym ksym = XK_Return
        ∧ s1.len < passwdSize ∧ verifierAccepts env (candidate s1) = true
        ∧ Effect.crypt (candidate s1) env.pws ∈ tr := by
  induction evs with
  | nil =>
    intro s s2 tr rest h hr hs
    simp only [readpwLoop, Except.ok.injEq, Prod.mk.injEq] at h
    rw [← h.1, hr] at hs
    cases hs
  | cons e es ih =>
    intro s s2 tr rest h hr hs
    rw [readpwLoop_cons env s e es hr] at h
    cases hst : step env s e with
    | error f => simp [hst] at h
    | ok r =>
      obtain ⟨sa, fx⟩ := r
      simp only [hst] at h
      cases hl : readpwLoop env sa es with
      | error f => simp [hl] at h
      | ok q =>
        obtain ⟨sb, trb, restb⟩ := q
        simp only [hl, Except.ok.injEq, Prod.mk.injEq] at h
        obtain ⟨rfl, rfl, rfl⟩ := h
        cases hra : sa.running with
        | true =>
          obtain ⟨pre, ksym, buf, s1, tr1, hev, hpre, h1, h2, h3, h4, h5, h6⟩ :=
            ih sa sb trb restb hl hra hs
          refine ⟨e :: pre, ksym, buf, s1, Effect.nextEvent :: fx ++ tr1, ?_, ?_, h1, h2, h3, h4,
            h5, ?_⟩
          · simp [hev]
          · rw [readpwLoop_cons env s e pre hr, hst]
            simp [hpre]
          · simp [h6]
        | false =>
          rw [readpwLoop_stopped env sa es hra] at hl
          simp only [Except.ok.injEq, Prod.mk.injEq] at hl
          obtain ⟨rfl, rfl, rfl⟩ := hl
          obtain ⟨ksym, buf, rfl, h3, h2, h4, h5, h6⟩ := step_stops env s sa e fx hst hr hra
          refine ⟨[], ksym, buf, s, [], rfl, rfl, hr, h2, h3, h4, h5, ?_⟩
          simp [h6]

/-- A run that gets past the start-up checks continues with the acquisition
loop. -/
theorem main_started (w : World) (pws : List Nat) (h : w.started pws) :
    main w = mainLocked w pws := by
  obtain ⟨h1, h2, h3, h4, h5⟩ := h
  simp [main, h1, h2, h3, h4, h5]

/-- A run that does not get past the start-up checks exits with status 1. -/
theorem main_not_started (w : World) (h : ∀ pws, ¬ w.started pws) :
    (main w).1 = .exit 1 ∧ ∃ msg, (main w).2 = [Effect.stderr msg] := by
  by_cases h1 : w.argc = 2 ∧ w.argv1IsV = true
  · simp [main, h1, die, EXIT_FAILURE]
  by_cases h2 : w.argc = 1
  swap
  · simp [main, h1, h2, usage, EXIT_FAILURE]
  cases h3 : w.hasPwEntry with
  | false => simp [main, h2, h3, die, EXIT_FAILURE]
  | true =>
    cases h4 : w.getpw with
    | none => simp [main, h2, h3, h4, die, EXIT_FAILURE]
    | some pws =>
      cases h5 : w.displayOpens with
      | false => simp [main, h2, h3, h4, h5, die, EXIT_FAILURE]
      | true =>
        cases h6 : w.locksAllocOk with
        | false => simp [main, h2, h3, h4, h5, h6, die, EXIT_FAILURE]
        | true => exact absurd ⟨h2, h3, h4, h5, h6⟩ (h pws)

/-- A run of `main` that returns 0 got past the start-up checks. -/
theorem main_exit_zero (w : World) (trace : List Effect) (h : main w = (.exit 0, trace)) :
    ∃ pws, w.started pws ∧ mainLocked w pws = (.exit 0, trace) := by
  by_cases hs : ∃ pws, w.started pws
  · obtain ⟨pws, hs⟩ := hs
    exact ⟨pws, hs, (main_started w pws hs).symm.trans h⟩
  · have := (main_not_started w (fun pws hp => hs ⟨pws, hp⟩)).1
    rw [h] at this
    cases this

/-- Claim C1.  For every sequence of events fed to `readpw`: if the loop ends
with `running` false, then the events split into a part `pre` that the loop
consumes entirely with `running` still true, one Return key event (keypad
Enter included) processed in a state with `pwmode` true whose buffered
candidate the verifier accepts, and the unread rest.  Hence every run of
`main` that returns 0 has a trace in which an accepted `crypt` call of
`readpw` comes before the release loop. -/
theorem stops_only_on_accepted_return :
    (∀ (env : Env) (passwd0 : List Nat) (evs : List Event) (s : State) (tr : List Effect)
        (rest : List Event),
        readpw env passwd0 evs = .ok (s, tr, rest) → s.running = false →
        ∃ pre ksym buf s1 tr1,
          evs = pre ++ Event.key ksym buf :: rest
          ∧ readpw env passwd0 pre = .ok (s1, tr1, [])
          ∧ s1.running = true ∧ s1.pwmode = true ∧ normKeysym ksym = XK_Return
          ∧ s1.len < passwdSize ∧ verifierAccepts env (candidate s1) = true
          ∧ Effect.crypt (candidate s1) env.pws ∈ tr)
    ∧ (∀ (w : World) (trace : List Effect), main w = (.exit 0, trace) →
        ∃ pws cand tr rel,
          w.getpw = some pws
          ∧ trace = (acquireLoop w.x w.nscreens 0 true).trace ++ [Effect.sync] ++ tr ++ rel
              ++ [Effect.freeLocks, Effect.closeDisplay]
          ∧ releaseLoop (acquireLoop w.x w.nscreens 0 true).locks w.nscreens 0 = .ok rel
          ∧ Effect.crypt cand pws ∈ tr
          ∧ ∃ hash, w.crypt cand pws = some hash ∧ cstr hash = cstr pws) := by
  constructor
  · intro env passwd0 evs s tr rest h hs
    exact readpwLoop_stops env evs (initState passwd0) s tr rest h rfl hs
  · intro w trace h
    obtain ⟨pws, hst, hml⟩ := main_exit_zero w trace h
    simp only [mainLocked] at hml
    split_ifs at hml with h6
    · cases hml
    · cases hrd : readpw (readpwEnv w pws (acquireLoop w.x w.nscreens 0 true).locks)
          w.passwd0 w.events with
      | error f => simp [hrd] at hml
      | ok q =>
        obtain ⟨s, tr, rest⟩ := q
        simp only [hrd] at hml
        cases hrun : s.running with
        | true => simp [hrun] at hml
        | false =>
          simp only [hrun, Bool.false_eq_true, if_false] at hml
          cases hrel : releaseLoop (acquireLoop w.x w.nscreens 0 true).locks w.nscreens 0 with
          | error f => simp [hrel] at hml
          | ok rel =>
            simp only [hrel, Prod.mk.injEq, true_and] at hml
            obtain ⟨pre, ksym, buf, s1, tr1, -, -, -, -, -, -, hacc, hmem⟩ :=
              readpwLoop_stops _ w.events (initState w.passwd0) s tr rest hrd rfl hrun
            refine ⟨pws, candidate s1, tr, rel, hst.2.2.1, hml.symm, rfl, hmem, ?_⟩
            simp only [verifierAccepts, readpwEnv] at hacc
            cases hc : w.crypt (candidate s1) pws with
            | none => simp [hc] at hacc
            | some hash =>
              simp only [hc, decide_eq_true_eq] at hacc
              exact ⟨hash, rfl, hacc⟩

theorem stops_only_on_accepted_return_witness :
    (∃ pre ksym buf s1 tr1,
      [keyOf 112, keyOf 119, keyOf 115, Event.key XK_Return [13], keyOf 120]
          = pre ++ Event.key ksym buf :: [keyOf 120]
      ∧ readpw sampleEnv samplePasswd pre = .ok (s1, tr1, [])
      ∧ s1.running = true ∧ s1.pwmode = true ∧ normKeysym ksym = XK_Return
      ∧ s1.len < passwdSize ∧ verifierAccepts sampleEnv (candidate s1) = true
      ∧ Effect.crypt (candidate s1) sampleEnv.pws
          ∈ [Effect.nextEvent, Effect.nextEvent, Effect.displayMsg 20 "pw-mode",
              Effect.nextEvent, Effect.nextEvent, Effect.crypt [115] [36, 49],
              Effect.displayMsg 20 ""])
    ∧ (main sampleWorld).1 = .exit 0
    ∧ ∃ pws cand tr rel,
        sampleWorld.getpw = some pws
        ∧ (main sampleWorld).2
            = (acquireLoop sampleWorld.x sampleWorld.nscreens 0 true).trace ++ [Effect.sync]
                ++ tr ++ rel ++ [Effect.freeLocks, Effect.closeDisplay]
        ∧ releaseLoop (acquireLoop sampleWorld.x sampleWorld.nscreens 0 true).locks
            sampleWorld.nscreens 0 = .ok rel
        ∧ Effect.crypt cand pws ∈ tr
        ∧ ∃ hash, sampleWorld.crypt cand pws = some hash ∧ cstr hash = cstr pws :=
  ⟨stops_only_on_accepted_return.1 sampleEnv samplePasswd
      [keyOf 112, keyOf 119, keyOf 115, Event.key XK_Return [13], keyOf 120]
      { passwd := [115, 0, 0] ++ List.replicate 253 7, len := 0, pwmode := false,
        running := false }
      [Effect.nextEvent, Effect.nextEvent, Effect.displayMsg 20 "pw-mode",
        Effect.nextEvent, Effect.nextEvent, Effect.crypt [115] [36, 49],
        Effect.displayMsg 20 ""]
      [keyOf 120] (by decide) (by decide),
    by decide,
    stops_only_on_accepted_return.2 sampleWorld (main sampleWorld).2 (by decide)⟩

/-- A step from a state outside password mode in which the sentinel is not
typed stays outside password mode, keeps `running` and does not call
`crypt`. -/
theorem step_unarmed (env : Env) (s s1 : State) (e : Event) (fx : List Effect)
    (h : step env s e = .ok (s1, fx)) (hp : s.pwmode = false) (hr : s.running = true)
    (hn : sentinelTyped s e = false) :
    s1.pwmode = false ∧ s1.running = true ∧ ∀ key salt, Effect.crypt key salt ∉ fx := by
  cases e with
  | other =>
    simp only [step] at h
    cases hrl : raiseLoop env.locks env.nscreens 0 with
    | error f => simp [hrl] at h
    | ok tr =>
      simp only [hrl, Except.ok.injEq, Prod.mk.injEq] at h
      obtain ⟨rfl, rfl⟩ := h
      refine ⟨hp, hr, ?_⟩
      intro key salt hmem
      obtain ⟨win, hw⟩ := raiseLoop_trace _ _ _ _ hrl _ hmem
      cases hw
  | key ksym buf =>
    by_cases h1 : ignoredKey (normKeysym ksym) = true
    · simp only [step, h1, if_true, Except.ok.injEq, Prod.mk.injEq] at h
      obtain ⟨rfl, rfl⟩ := h
      exact ⟨hp, hr, by simp⟩
    by_cases h2 : normKeysym ksym = XK_Return
    · rw [h2] at h1
      simp only [step, h2, h1, onReturn, hp, Bool.not_false, if_true, if_false, Except.ok.injEq,
        Prod.mk.injEq] at h
      obtain ⟨rfl, rfl⟩ := h
      exact ⟨hp, hr, by simp⟩
    by_cases h3 : normKeysym ksym = XK_Escape
    · rw [h3] at h1 h2
      simp only [step, h3, h1, h2, onEscape, if_false] at h
      cases hw : headWin env with
      | error f => simp [hw] at h
      | ok win =>
        simp only [hw, Except.ok.injEq, Prod.mk.injEq] at h
        obtain ⟨rfl, rfl⟩ := h
        exact ⟨rfl, hr, by simp [display_msg]⟩
    by_cases h4 : normKeysym ksym = XK_BackSpace
    · rw [h4] at h1 h2 h3
      simp only [step, h4, h1, h2, h3, if_false, if_true, Except.ok.injEq, Prod.mk.injEq] at h
      obtain ⟨rfl, rfl⟩ := h
      refine ⟨?_, ?_, by simp⟩
      · simp only [onBackSpace]
        split_ifs <;> simp [hp]
      · simp only [onBackSpace]
        split_ifs <;> simp [hr]
    have hk : reachesDefault ksym = true := by
      simp [reachesDefault, h1, h2, h3, h4]
    rw [step_default env s ksym buf hk] at h
    cases hg : appendGuard s buf with
    | false =>
      simp only [onDefault, hg, Bool.false_eq_true, if_false, Except.ok.injEq, Prod.mk.injEq] at h
      obtain ⟨rfl, rfl⟩ := h
      exact ⟨hp, hr, by simp⟩
    | true =>
      have hne : cstr (appendBuf s buf) ≠ pwLiteral := by
        simpa [sentinelTyped, hk, hg] using hn
      have h0 : strcmp (appendBuf s buf) pwLiteral ≠ 0 := fun h0 =>
        hne (((strcmp_eq_zero_iff _ _).1 h0).trans cstr_pwLiteral)
      by_cases hb : s.len + buf.length ≤ passwdSize
      · simp only [onDefault, hg, hb, h0, if_true, if_false, Except.ok.injEq, Prod.mk.injEq] at h
        obtain ⟨rfl, rfl⟩ := h
        exact ⟨hp, hr, by simp⟩
      · simp [onDefault, hg, hb] at h

theorem readpwLoop_unarmed (env : Env) (evs : List Event) :
    ∀ (s s2 : State) (tr : List Effect) (rest : List Event),
      readpwLoop env s evs = .ok (s2, tr, rest) → s.pwmode = false → s.running = true →
      sentinelNeverTyped env s evs = true →
      s2.pwmode = false ∧ s2.running = true ∧ rest = []
        ∧ ∀ key salt, Effect.crypt key salt ∉ tr := by
  induction evs with
  | nil =>
    intro s s2 tr rest h hp hr _
    simp only [readpwLoop, Except.ok.injEq, Prod.mk.injEq] at h
    obtain ⟨rfl, rfl, rfl⟩ := h
    exact ⟨hp, hr, rfl, by simp⟩
  | cons e es ih =>
    intro s s2 tr rest h hp hr hn
    rw [readpwLoop_cons env s e es hr] at h
    cases hst : step env s e with
    | error f => simp [hst] at h
    | ok r =>
      obtain ⟨sa, fx⟩ := r
      simp only [hst] at h
      cases hl : readpwLoop env sa es with
      | error f => simp [hl] at h
      | ok q =>
        obtain ⟨sb, trb, restb⟩ := q
        simp only [hl, Except.ok.injEq, Prod.mk.injEq] at h
        obtain ⟨rfl, rfl, rfl⟩ := h
        simp only [sentinelNeverTyped, hst, Bool.and_eq_true, Bool.not_eq_true'] at hn
        obtain ⟨ha1, ha2, ha3⟩ := step_unarmed env s sa e fx hst hp hr hn.1
        obtain ⟨hb1, hb2, hb3, hb4⟩ := ih sa sb trb restb hl ha1 ha2 hn.2
        refine ⟨hb1, hb2, hb3, ?_⟩
        intro key salt hmem
        simp only [List.cons_append, List.mem_cons, List.mem_append] at hmem
        rcases hmem with hmem | hmem | hmem
        · cases hmem
        · exact ha3 key salt hmem
        · exact hb4 key salt hmem

/-- Claim C2.  Starting from the initial state of `readpw` (`len = 0`, `pwmode`
false), for every sequence of events during which the buffer is never the C
string `"pw"` right after an append: `pwmode` is false and `running` is true
at the end (hence after every event, the claim holding for each initial part
of the sequence), all events are consumed, and `crypt` is never called. -/
theorem no_sentinel_no_verification (env : Env) (passwd0 : List Nat) (evs : List Event)
    (s : State) (tr : List Effect) (rest : List Event)
    (h : readpw env passwd0 evs = .ok (s, tr, rest))
    (hn : sentinelNeverTyped env (initState passwd0) evs = true) :
    s.pwmode = false ∧ s.running = true ∧ rest = []
      ∧ ∀ key salt, Effect.crypt key salt ∉ tr :=
  readpwLoop_unarmed env evs (initState passwd0) s tr rest h rfl rfl hn


theorem no_sentinel_no_verification_witness :
    sentinelNeverTyped sampleEnv (initState samplePasswd)
        [keyOf 97, Event.key XK_Return [13], keyOf 112, keyOf 120, Event.key XK_BackSpace [8],
          Event.key XK_KP_Enter [13]] = true
    ∧ ∀ key salt, Effect.crypt key salt ∉ List.replicate 6 Effect.nextEvent :=
  ⟨by decide,
    (no_sentinel_no_verification sampleEnv samplePasswd
      [keyOf 97, Event.key XK_Return [13], keyOf 112, keyOf 120, Event.key XK_BackSpace [8],
        Event.key XK_KP_Enter [13]]
      { passwd := [97, 112, 120, 0] ++ List.replicate 252 7, len := 2, pwmode := false,
        running := true }
      (List.replicate 6 Effect.nextEvent) [] (by decide) (by decide)).2.2.2⟩

/-- The length of the array after the append of lines 171-173. -/
theorem appendBuf_length (s : State) (buf : List Nat)
    (hb : s.len + buf.length ≤ s.passwd.length) :
    (appendBuf s buf).length = s.passwd.length := by
  simp only [appendBuf, memcpy, List.length_set, List.length_append, List.length_take,
    List.length_drop]
  omega

/-- The access `(*locks)->win` never faults on `passwd`. -/
theorem headWin_fault (env : Env) (f : Fault) (h : headWin env = .error f) :
    f ≠ .passwdOverflow := by
  unfold headWin at h
  split at h <;> simp only [Except.error.injEq, reduceCtorEq] at h <;> subst h <;> simp

/-- The re-raise loop never faults on `passwd`. -/
theorem raiseLoop_fault (locks : List (Option Lock)) (n screen : Nat) (f : Fault)
    (h : raiseLoop locks n screen = .error f) : f ≠ .passwdOverflow := by
  induction n generalizing screen with
  | zero => simp [raiseLoop] at h
  | succ n ih =>
    simp only [raiseLoop] at h
    split at h
    · simp only [Except.error.injEq] at h
      subst h
      simp
    · simp only [Except.error.injEq] at h
      subst h
      simp
    · split at h
      · rename_i f1 hf1
        simp only [Except.error.injEq] at h
        subst h
        exact ih _ hf1
      · simp at h

theorem step_ignored (env : Env) (s : State) (ksym : Nat) (buf : List Nat)
    (h : ignoredKey (normKeysym ksym) = true) : step env s (.key ksym buf) = .ok (s, []) := by
  simp [step, h]

theorem step_return (env : Env) (s : State) (ksym : Nat) (buf : List Nat)
    (h : normKeysym ksym = XK_Return) : step env s (.key ksym buf) = onReturn env s := by
  have h2 : ignoredKey XK_Return = false := by decide
  simp [step, h, h2]

theorem step_escape (env : Env) (s : State) (ksym : Nat) (buf : List Nat)
    (h : normKeysym ksym = XK_Escape) : step env s (.key ksym buf) = onEscape env s := by
  have h2 : ignoredKey XK_Escape = false := by decide
  have h3 : XK_Escape ≠ XK_Return := by decide
  simp [step, h, h2, h3]

theorem step_backspace (env : Env) (s : State) (ksym : Nat) (buf : List Nat)
    (h : normKeysym ksym = XK_BackSpace) :
    step env s (.key ksym buf) = .ok (onBackSpace s, []) := by
  have h2 : ignoredKey XK_BackSpace = false := by decide
  have h3 : XK_BackSpace ≠ XK_Return := by decide
  have h4 : XK_BackSpace ≠ XK_Escape := by decide
  simp [step, h, h2, h3, h4]

/-- A step from a state that satisfies the invariant, on an event with at
most `sizeof buf` looked-up bytes, writes inside `passwd` only and keeps the
invariant. -/
theorem step_inv (env : Env) (s : State) (e : Event) (hs : s.inv) (he : e.wf) :
    step env s e ≠ .error .passwdOverflow
      ∧ ∀ s1 fx, step env s e = .ok (s1, fx) → s1.inv := by
  obtain ⟨hlen, hsz⟩ := hs
  cases e with
  | other =>
    simp only [step]
    cases hrl : raiseLoop env.locks env.nscreens 0 with
    | error f =>
      refine ⟨?_, by simp⟩
      intro hf
      simp only [Except.error.injEq] at hf
      exact raiseLoop_fault _ _ _ _ hrl hf
    | ok tr =>
      refine ⟨by simp, ?_⟩
      intro s1 fx h
      simp only [Except.ok.injEq, Prod.mk.injEq] at h
      obtain ⟨rfl, -⟩ := h
      exact ⟨hlen, hsz⟩
  | key ksym buf =>
    have hbuf : buf.length ≤ bufSize := he
    by_cases h1 : ignoredKey (normKeysym ksym) = true
    · rw [step_ignored env s ksym buf h1]
      refine ⟨by simp, ?_⟩
      intro s1 fx h
      simp only [Except.ok.injEq, Prod.mk.injEq] at h
      obtain ⟨rfl, -⟩ := h
      exact ⟨hlen, hsz⟩
    by_cases h2 : normKeysym ksym = XK_Return
    · rw [step_return env s ksym buf h2]
      simp only [onReturn, hlen, if_true]
      cases s.pwmode with
      | false =>
        refine ⟨by simp, ?_⟩
        intro s1 fx h
        simp only [Bool.not_false, if_true, Except.ok.injEq, Prod.mk.injEq] at h
        obtain ⟨rfl, -⟩ := h
        exact ⟨hlen, hsz⟩
      | true =>
        cases hc : env.crypt (cstr (s.passwd.set s.len 0)) env.pws with
        | none => exact ⟨by simp, by simp⟩
        | some hash =>
          cases hw : headWin env with
          | error f =>
            refine ⟨?_, by simp⟩
            intro hf
            simp only [Bool.not_true, Bool.false_eq_true, if_false, Except.error.injEq] at hf
            exact headWin_fault env f hw hf
          | ok win =>
            refine ⟨by simp, ?_⟩
            intro s1 fx h
            simp only [Bool.not_true, Bool.false_eq_true, if_false, Except.ok.injEq,
              Prod.mk.injEq] at h
            obtain ⟨rfl, -⟩ := h
            exact ⟨by simp [passwdSize], by simp [hsz]⟩
    by_cases h3 : normKeysym ksym = XK_Escape
    · rw [step_escape env s ksym buf h3]
      simp only [onEscape]
      cases hw : headWin env with
      | error f =>
        refine ⟨?_, by simp⟩
        intro hf
        simp only [Except.error.injEq] at hf
        exact headWin_fault env f hw hf
      | ok win =>
        refine ⟨by simp, ?_⟩
        intro s1 fx h
        simp only [Except.ok.injEq, Prod.mk.injEq] at h
        obtain ⟨rfl, -⟩ := h
        exact ⟨by simp [passwdSize], hsz⟩
    by_cases h4 : normKeysym ksym = XK_BackSpace
    · rw [step_backspace env s ksym buf h4]
      refine ⟨by simp, ?_⟩
      intro s1 fx h
      simp only [Except.ok.injEq, Prod.mk.injEq] at h
      obtain ⟨rfl, -⟩ := h
      simp only [onBackSpace]
      split_ifs
      · exact ⟨by simp only []; omega, hsz⟩
      · exact ⟨hlen, hsz⟩
    have hk : reachesDefault ksym = true := by
      simp [reachesDefault, h1, h2, h3, h4]
    rw [step_default env s ksym buf hk]
    cases hg : appendGuard s buf with
    | false =>
      simp only [onDefault, hg, Bool.false_eq_true, if_false]
      refine ⟨by simp, ?_⟩
      intro s1 fx h
      simp only [Except.ok.injEq, Prod.mk.injEq] at h
      obtain ⟨rfl, -⟩ := h
      exact ⟨hlen, hsz⟩
    | true =>
      obtain ⟨hb, hmod⟩ := appendGuard_bound s buf hlen hbuf hg
      have hb1 : s.len + buf.length ≤ passwdSize := Nat.le_of_lt hb
      have hl : (appendBuf s buf).length = passwdSize := by
        rw [appendBuf_length s buf (by rw [hsz]; exact hb1), hsz]
      simp only [onDefault, hg, hb1, if_true, hmod]
      split_ifs with h0
      · cases hw : headWin env with
        | error f =>
          refine ⟨?_, by simp⟩
          intro hf
          simp only [Except.error.injEq] at hf
          exact headWin_fault env f hw hf
        | ok win =>
          refine ⟨by simp, ?_⟩
          intro s1 fx h
          simp only [Except.ok.injEq, Prod.mk.injEq] at h
          obtain ⟨rfl, -⟩ := h
          exact ⟨by simp [passwdSize], hl⟩
      · refine ⟨by simp, ?_⟩
        intro s1 fx h
        simp only [Except.ok.injEq, Prod.mk.injEq] at h
        obtain ⟨rfl, -⟩ := h
        exact ⟨hb, hl⟩

theorem readpwLoop_inv (env : Env) (evs : List Event) :
    ∀ (s : State), s.inv → (∀ e ∈ evs, e.wf) →
      readpwLoop env s evs ≠ .error .passwdOverflow
        ∧ ∀ s2 tr rest, readpwLoop env s evs = .ok (s2, tr, rest) → s2.inv := by
  induction evs with
  | nil =>
    intro s hs _
    refine ⟨by simp [readpwLoop], ?_⟩
    intro s2 tr rest h
    simp only [readpwLoop, Except.ok.injEq, Prod.mk.injEq] at h
    obtain ⟨rfl, -⟩ := h
    exact hs
  | cons e es ih =>
    intro s hs hev
    cases hr : s.running with
    | false =>
      rw [readpwLoop_stopped env s (e :: es) hr]
      refine ⟨by simp, ?_⟩
      intro s2 tr rest h
      simp only [Except.ok.injEq, Prod.mk.injEq] at h
      obtain ⟨rfl, -⟩ := h
      exact hs
    | true =>
      rw [readpwLoop_cons env s e es hr]
      obtain ⟨hne, hinv⟩ := step_inv env s e hs (hev e (List.mem_cons_self _ _))
      cases hst : step env s e with
      | error f =>
        refine ⟨?_, by simp⟩
        intro hf
        simp only [Except.error.injEq] at hf
        subst hf
        exact hne hst
      | ok r =>
        obtain ⟨sa, fx⟩ := r
        obtain ⟨hne2, hinv2⟩ := ih sa (hinv sa fx hst)
          (fun e1 h1 => hev e1 (List.mem_cons_of_mem _ h1))
        dsimp only
        cases hl : readpwLoop env sa es with
        | error f =>
          refine ⟨?_, by simp⟩
          intro hf
          simp only [Except.error.injEq] at hf
          subst hf
          exact hne2 hl
        | ok q =>
          obtain ⟨sb, trb, restb⟩ := q
          refine ⟨by simp, ?_⟩
          intro s2 tr rest h
          simp only [Except.ok.injEq, Prod.mk.injEq] at h
          obtain ⟨rfl, -⟩ := h
          exact hinv2 sb trb restb hl

/-- Claim C6.  From the initial state of `readpw` (with `passwd` an array of 256
bytes of any content), over every sequence of events each delivering at most
32 looked-up bytes: no step writes outside `passwd` (neither the `memcpy` nor
a terminator write `passwd[len] = 0`), and in the state reached `len <= 255`,
below the capacity 256. -/
theorem len_below_capacity (env : Env) (passwd0 : List Nat) (evs : List Event)
    (h0 : passwd0.length = passwdSize) (hev : ∀ e ∈ evs, e.wf) :
    readpw env passwd0 evs ≠ .error .passwdOverflow
      ∧ ∀ s tr rest, readpw env passwd0 evs = .ok (s, tr, rest) →
          s.len ≤ 255 ∧ s.len < passwdSize ∧ s.passwd.length = passwdSize := by
  obtain ⟨h1, h2⟩ := readpwLoop_inv env evs (initState passwd0)
    ⟨by simp [initState, passwdSize], h0⟩ hev
  refine ⟨h1, ?_⟩
  intro s tr rest h
  obtain ⟨ha, hb⟩ := h2 s tr rest h
  exact ⟨by simp only [passwdSize] at ha; omega, ha, hb⟩

theorem len_below_capacity_witness :
    samplePasswd.length = passwdSize ∧ (∀ e ∈ fillEvents, e.wf)
    ∧ readpw sampleEnv samplePasswd fillEvents
        = .ok ({ passwd := List.replicate 224 97 ++ [0] ++ List.replicate 31 7, len := 224,
                 pwmode := false, running := true },
            List.replicate 10 Effect.nextEvent, [])
    ∧ readpw sampleEnv samplePasswd fillEvents ≠ .error .passwdOverflow
    ∧ (224 : Nat) ≤ 255 :=
  ⟨by decide, by decide, by decide,
    (len_below_capacity sampleEnv samplePasswd fillEvents (by decide) (by decide)).1,
    ((len_below_capacity sampleEnv samplePasswd fillEvents (by decide) (by decide)).2
      { passwd := List.replicate 224 97 ++ [0] ++ List.replicate 31 7, len := 224,
        pwmode := false, running := true }
      (List.replicate 10 Effect.nextEvent) [] (by decide)).1⟩

/-! ## Acquisition and release -/

theorem grabLoop_fromReadpw (grab : Nat → Bool) (call : Bool → Effect)
    (hc : ∀ b, (call b).fromReadpw = false) (len attempt : Nat) :
    ∀ e ∈ (grabLoop grab call len attempt).2, e.fromReadpw = false := by
  induction len generalizing attempt with
  | zero => simp [grabLoop]
  | succ len ih =>
    simp only [grabLoop]
    split_ifs
    · simp [hc]
    · intro e he
      simp only [List.mem_cons] at he
      rcases he with rfl | rfl | he
      · exact hc _
      · rfl
      · exact ih _ e he

theorem lockscreen_fromReadpw (x : XEnv) (running : Bool) (screen : Nat) :
    ∀ e ∈ (lockscreen x running screen).trace, e.fromReadpw = false := by
  have hp := grabLoop_fromReadpw (x.grabPointer screen)
    (Effect.grabPointer (mkLock x screen).root) (fun _ => rfl) grabBudget 0
  have hk := grabLoop_fromReadpw (x.grabKeyboard screen)
    (Effect.grabKeyboard (mkLock x screen).root) (fun _ => rfl) grabBudget 0
  have hs : ∀ e ∈ setupTrace (mkLock x screen), e.fromReadpw = false := by
    simp [setupTrace, Effect.fromReadpw]
  have hu : ∀ e ∈ unlockscreen (some (mkLock x screen)), e.fromReadpw = false := by
    simp [unlockscreen, Effect.fromReadpw]
  have hi : ∀ e ∈ [Effect.selectInput (mkLock x screen).root], e.fromReadpw = false := by
    simp [Effect.fromReadpw]
  intro e he
  simp only [lockscreen] at he
  split_ifs at he
  all_goals simp only [List.mem_append] at he
  all_goals
    first
    | (rcases he with ((he | he) | he) | he
       all_goals
        first
        | exact hs e he
        | exact hp e he
        | exact hk e he
        | exact hu e he
        | exact hi e he
        | exact absurd he (List.not_mem_nil e))

theorem acquireLoop_fromReadpw (x : XEnv) (n screen : Nat) (running : Bool) :
    ∀ e ∈ (acquireLoop x n screen running).trace, e.fromReadpw = false := by
  induction n generalizing screen running with
  | zero => simp [acquireLoop]
  | succ n ih =>
    intro e he
    simp only [acquireLoop, List.mem_append] at he
    rcases he with he | he
    · exact lockscreen_fromReadpw x running screen e he
    · exact ih _ _ e he

/-- The counter `nlocks` stays 0 when every call of `lockscreen` returns
NULL. -/
theorem acquireLoop_none (x : XEnv) (n screen : Nat) (running : Bool)
    (h : ∀ l ∈ (acquireLoop x n screen running).locks, l = none) :
    (acquireLoop x n screen running).nlocks = 0 := by
  induction n generalizing screen running with
  | zero => simp [acquireLoop]
  | succ n ih =>
    simp only [acquireLoop, List.mem_cons, forall_eq_or_imp] at h
    simp only [acquireLoop]
    rw [ih _ _ h.2, h.1]
    rfl

/-- Claim C9.  For every screen count, if every call of `lockscreen` in the
acquisition loop returns NULL, then `nlocks = 0` and `main` exits with status
1; its trace holds no call of `readpw`, and for a run that got past the
start-up checks it is the trace of the acquisition loop followed by `XSync`,
`free(locks)` and `XCloseDisplay` alone: `readpw` is not invoked and the
release loop releases nothing. -/
theorem nothing_to_protect (w : World)
    (hfail : ∀ l ∈ (acquireLoop w.x w.nscreens 0 true).locks, l = none) :
    (acquireLoop w.x w.nscreens 0 true).nlocks = 0
    ∧ (main w).1 = .exit 1
    ∧ (∀ e ∈ (main w).2, e.fromReadpw = false)
    ∧ ∀ pws, w.started pws →
        main w = (.exit 1, (acquireLoop w.x w.nscreens 0 true).trace
          ++ [Effect.sync, Effect.freeLocks, Effect.closeDisplay]) := by
  have hn := acquireLoop_none w.x w.nscreens 0 true hfail
  have hm : ∀ pws, w.started pws →
      main w = (.exit 1, (acquireLoop w.x w.nscreens 0 true).trace
        ++ [Effect.sync, Effect.freeLocks, Effect.closeDisplay]) := by
    intro pws hs
    rw [main_started w pws hs]
    simp [mainLocked, hn]
  refine ⟨hn, ?_, ?_, hm⟩
  · by_cases hs : ∃ pws, w.started pws
    · obtain ⟨pws, hs⟩ := hs
      rw [hm pws hs]
    · exact (main_not_started w (fun pws hp => hs ⟨pws, hp⟩)).1
  · by_cases hs : ∃ pws, w.started pws
    · obtain ⟨pws, hs⟩ := hs
      rw [hm pws hs]
      intro e he
      simp only [List.mem_append, List.mem_cons, List.mem_singleton, List.not_mem_nil,
        or_false] at he
      rcases he with he | rfl | rfl | rfl
      · exact acquireLoop_fromReadpw _ _ _ _ e he
      · rfl
      · rfl
      · rfl
    · obtain ⟨msg, hmsg⟩ := (main_not_started w (fun pws hp => hs ⟨pws, hp⟩)).2
      rw [hmsg]
      intro e he
      simp only [List.mem_singleton] at he
      subst he
      rfl


theorem nothing_to_protect_witness :
    (∀ l ∈ (acquireLoop busyWorld.x busyWorld.nscreens 0 true).locks, l = none)
    ∧ (main busyWorld).1 = .exit 1
    ∧ (main { busyWorld with nscreens := 0 }).1 = .exit 1 :=
  ⟨by decide, (nothing_to_protect busyWorld (by decide)).2.1,
    (nothing_to_protect { busyWorld with nscreens := 0 } (by decide)).2.1⟩

/-- A grab loop in which some attempt within the budget succeeds ends with a
positive counter. -/
theorem grabLoop_pos (grab : Nat → Bool) (call : Bool → Effect) (len attempt : Nat)
    (h : ∃ k, k < len ∧ grab (attempt + k) = true) :
    0 < (grabLoop grab call len attempt).1 := by
  induction len generalizing attempt with
  | zero =>
    obtain ⟨k, hk, -⟩ := h
    omega
  | succ len ih =>
    simp only [grabLoop]
    split_ifs with hg
    · simp
    · apply ih
      obtain ⟨k, hk, hgk⟩ := h
      cases k with
      | zero => simp [hg] at hgk
      | succ k =>
        refine ⟨k, by omega, ?_⟩
        rw [← hgk]
        congr 1
        omega

theorem grabLoop_track (grab : Nat → Bool) (call : Bool → Effect)
    (hc : ∀ b acc, trackWindow acc (call b) = acc) (len attempt : Nat) (acc : List Nat) :
    (grabLoop grab call len attempt).2.foldl trackWindow acc = acc := by
  induction len generalizing attempt with
  | zero => simp [grabLoop]
  | succ len ih =>
    simp only [grabLoop]
    split_ifs
    · simp [hc]
    · rw [List.foldl_cons, hc, List.foldl_cons]
      exact ih _

/-- A call of `lockscreen` with `running` true, a successful `malloc` and both
grabs succeeding within the budget returns the lock and keeps `running`. -/
theorem lockscreen_success (x : XEnv) (screen : Nat) (hm : x.mallocOk screen = true)
    (hp : ∃ k, k < grabBudget ∧ x.grabPointer screen k = true)
    (hk : ∃ k, k < grabBudget ∧ x.grabKeyboard screen k = true) :
    lockscreen x true screen =
      { lock := some (mkLock x screen), running := true,
        trace := setupTrace (mkLock x screen)
          ++ (grabLoop (x.grabPointer screen) (Effect.grabPointer (mkLock x screen).root)
                grabBudget 0).2
          ++ (grabLoop (x.grabKeyboard screen) (Effect.grabKeyboard (mkLock x screen).root)
                grabBudget 0).2
          ++ [Effect.selectInput (mkLock x screen).root] } := by
  have h1 : decide ((grabLoop (x.grabPointer screen) (Effect.grabPointer (mkLock x screen).root)
      grabBudget 0).1 > 0) = true :=
    decide_eq_true (grabLoop_pos _ _ _ _ (by simpa using hp))
  have h2 : decide ((grabLoop (x.grabKeyboard screen) (Effect.grabKeyboard (mkLock x screen).root)
      grabBudget 0).1 > 0) = true :=
    decide_eq_true (grabLoop_pos _ _ _ _ (by simpa using hk))
  simp only [lockscreen, hm, h1, h2, Bool.not_true, Bool.false_eq_true, if_false, Bool.and_self,
    if_true]

theorem lockscreen_success_track (x : XEnv) (screen : Nat) (hm : x.mallocOk screen = true)
    (hp : ∃ k, k < grabBudget ∧ x.grabPointer screen k = true)
    (hk : ∃ k, k < grabBudget ∧ x.grabKeyboard screen k = true) (acc : List Nat) :
    (lockscreen x true screen).trace.foldl trackWindow acc = x.newWindow screen :: acc := by
  rw [lockscreen_success x screen hm hp hk]
  simp only [List.foldl_append]
  rw [grabLoop_track _ (Effect.grabKeyboard (mkLock x screen).root) (fun _ _ => rfl),
    grabLoop_track _ (Effect.grabPointer (mkLock x screen).root) (fun _ _ => rfl)]
  rfl


/-- The acquisition loop over `n` screens from `screen` on, when `malloc` and
both grabs succeed on each of them. -/
theorem acquireLoop_success (x : XEnv) (n screen : Nat)
    (hm : ∀ i, screen ≤ i → i < screen + n → x.mallocOk i = true)
    (hp : ∀ i, screen ≤ i → i < screen + n → ∃ k, k < grabBudget ∧ x.grabPointer i k = true)
    (hk : ∀ i, screen ≤ i → i < screen + n → ∃ k, k < grabBudget ∧ x.grabKeyboard i k = true) :
    (acquireLoop x n screen true).locks = (List.range' screen n).map (fun i => some (mkLock x i))
    ∧ (acquireLoop x n screen true).nlocks = n
    ∧ (acquireLoop x n screen true).running = true
    ∧ ∀ acc, (acquireLoop x n screen true).trace.foldl trackWindow acc
        = ((List.range' screen n).map x.newWindow).reverse ++ acc := by
  induction n generalizing screen with
  | zero => simp [acquireLoop]
  | succ n ih =>
    have hs := lockscreen_success x screen (hm screen (le_refl _) (by omega))
      (hp screen (le_refl _) (by omega)) (hk screen (le_refl _) (by omega))
    have ht := lockscreen_success_track x screen (hm screen (le_refl _) (by omega))
      (hp screen (le_refl _) (by omega)) (hk screen (le_refl _) (by omega))
    have hl : (lockscreen x true screen).lock = some (mkLock x screen) := by rw [hs]
    have hr : (lockscreen x true screen).running = true := by rw [hs]
    obtain ⟨i1, i2, i3, i4⟩ := ih (screen + 1)
      (fun i h1 h2 => hm i (by omega) (by omega))
      (fun i h1 h2 => hp i (by omega) (by omega))
      (fun i h1 h2 => hk i (by omega) (by omega))
    simp only [acquireLoop, hr, hl, List.range'_succ, List.map_cons]
    refine ⟨by rw [i1], by rw [i2]; simp; omega, i3, ?_⟩
    intro acc
    rw [List.foldl_append, ht, i4]
    simp

/-- The release loop over the last `n` slots of an array that holds them. -/
theorem releaseLoop_ok (locks : List (Option Lock)) (n screen : Nat)
    (h : screen + n = locks.length) :
    releaseLoop locks n screen = .ok ((locks.drop screen).flatMap unlockscreen) := by
  induction n generalizing screen with
  | zero =>
    have : locks.drop screen = [] := List.drop_eq_nil_of_le (by omega)
    simp [releaseLoop, this]
  | succ n ih =>
    have hlt : screen < locks.length := by omega
    simp only [releaseLoop, List.get?_eq_getElem?, List.getElem?_eq_getElem hlt]
    rw [ih (screen + 1) (by omega), List.drop_eq_getElem_cons hlt]
    rfl

/-- The windows that remain after the calls of `unlockscreen` on a list of
locks. -/
theorem release_track (ls : List Lock) (acc : List Nat) :
    ((ls.map some).flatMap unlockscreen).foldl trackWindow acc = acc.diff (ls.map Lock.win) := by
  induction ls generalizing acc with
  | nil => simp
  | cons l ls ih =>
    simp only [List.map_cons, List.flatMap_cons, List.foldl_append, ih, List.diff_cons]
    rfl

theorem diff_self_nil (l : List Nat) : l.diff l = [] := by
  induction l with
  | nil => rfl
  | cons a l ih => simp [List.diff_cons, ih]

/-- Claim C10.  For every screen count `n`, if on every screen `malloc`
succeeds and the pointer grab and the keyboard grab succeed within the retry
budget, then the acquisition loop fills all `n` slots (`nlocks = n`, `running`
still true), and the release loop run on them releases the Head of every
screen once, in increasing order, without fault; after it no window created
by the acquisition is left. -/
theorem all_acquired_then_all_released (x : XEnv) (n : Nat)
    (hm : ∀ i, i < n → x.mallocOk i = true)
    (hp : ∀ i, i < n → ∃ k, k < grabBudget ∧ x.grabPointer i k = true)
    (hk : ∀ i, i < n → ∃ k, k < grabBudget ∧ x.grabKeyboard i k = true) :
    (acquireLoop x n 0 true).locks = (List.range n).map (fun i => some (mkLock x i))
    ∧ (acquireLoop x n 0 true).nlocks = n
    ∧ (acquireLoop x n 0 true).running = true
    ∧ releaseLoop (acquireLoop x n 0 true).locks n 0
        = .ok ((List.range n).flatMap (fun i => unlockscreen (some (mkLock x i))))
    ∧ openWindows ((acquireLoop x n 0 true).trace
        ++ (List.range n).flatMap (fun i => unlockscreen (some (mkLock x i)))) = [] := by
  obtain ⟨h1, h2, h3, h4⟩ := acquireLoop_success x n 0
    (fun i _ h => hm i (by omega)) (fun i _ h => hp i (by omega)) (fun i _ h => hk i (by omega))
  rw [← List.range_eq_range'] at h1 h4
  have hfm : (List.range n).flatMap (fun i => unlockscreen (some (mkLock x i)))
      = (((List.range n).map (mkLock x)).map some).flatMap unlockscreen := by
    simp [List.flatMap_def, List.map_map, Function.comp_def]
  refine ⟨h1, h2, h3, ?_, ?_⟩
  · rw [releaseLoop_ok _ n 0 (by rw [h1]; simp), h1]
    simp [List.flatMap_def, List.map_map, Function.comp_def]
  · rw [openWindows, List.foldl_append, h4, hfm, release_track]
    have hw : ((List.range n).map (mkLock x)).map Lock.win = (List.range n).map x.newWindow := by
      simp [List.map_map, mkLock, Function.comp_def]
    rw [hw, List.append_nil]
    have hperm := List.Perm.diff_right ((List.range n).map x.newWindow)
      (List.reverse_perm ((List.range n).map x.newWindow))
    rw [diff_self_nil] at hperm
    exact List.Perm.eq_nil hperm


theorem all_acquired_then_all_released_witness :
    (acquireLoop sampleX 2 0 true).locks = [some (mkLock sampleX 0), some (mkLock sampleX 1)]
    ∧ (acquireLoop sampleX 2 0 true).nlocks = 2
    ∧ releaseLoop (acquireLoop sampleX 2 0 true).locks 2 0
        = .ok [Effect.ungrabPointer, Effect.freePixmap 30, Effect.destroyWindow 20,
            Effect.freeLock 0, Effect.ungrabPointer, Effect.freePixmap 31,
            Effect.destroyWindow 21, Effect.freeLock 1] := by
  obtain ⟨h1, h2, -, h4, -⟩ := all_acquired_then_all_released sampleX 2 (fun _ _ => rfl)
    (fun _ _ => ⟨2, by decide, rfl⟩) (fun _ _ => ⟨2, by decide, rfl⟩)
  exact ⟨h1, h2, h4⟩

/-! ## Keypad normalisation -/

theorem normKeysym_kp_digit (d : Nat) (h : d ≤ 9) :
    normKeysym (XK_KP_0 + d) = XK_0 + d ∧ normKeysym (XK_0 + d) = XK_0 + d
      ∧ ignoredKey (XK_0 + d) = false := by
  interval_cases d <;> decide

/-- Claim C14.  For every state and every looked-up string, a keypad-Enter key
event has the same result (next state, calls, faults) as a Return key event,
and a keypad-digit key event the same as the ordinary digit key event with
the same looked-up string; after the normalisation neither is discarded by
the filter of lines 133-136. -/
theorem keypad_normalised (env : Env) (s : State) (buf : List Nat) :
    step env s (.key XK_KP_Enter buf) = step env s (.key XK_Return buf)
    ∧ ignoredKey (normKeysym XK_KP_Enter) = false
    ∧ ∀ d, d ≤ 9 →
        step env s (.key (XK_KP_0 + d) buf) = step env s (.key (XK_0 + d) buf)
        ∧ ignoredKey (normKeysym (XK_KP_0 + d)) = false := by
  have h1 : normKeysym XK_KP_Enter = XK_Return := by decide
  have h2 : normKeysym XK_Return = XK_Return := by decide
  refine ⟨?_, by decide, ?_⟩
  · simp only [step, h1, h2]
  · intro d hd
    obtain ⟨h3, h4, h5⟩ := normKeysym_kp_digit d hd
    refine ⟨?_, by rw [h3]; exact h5⟩
    simp only [step, h3, h4]

theorem keypad_normalised_witness :
    step sampleEnv (armedState [115]) (.key XK_KP_Enter [13])
        = step sampleEnv (armedState [115]) (.key XK_Return [13])
    ∧ step sampleEnv (bufferingState [97]) (.key (XK_KP_0 + 7) [55])
        = step sampleEnv (bufferingState [97]) (.key (XK_0 + 7) [55])
    ∧ step sampleEnv (bufferingState [97]) (.key (XK_KP_0 + 7) [55])
        = .ok ({ passwd := [97, 55, 0] ++ List.replicate 253 7, len := 2, pwmode := false,
                 running := true }, []) :=
  ⟨(keypad_normalised sampleEnv (armedState [115]) [13]).1,
    ((keypad_normalised sampleEnv (bufferingState [97]) [55]).2.2 7 (by decide)).1,
    by decide⟩

/-! ## The release loop -/

theorem acquireLoop_length (x : XEnv) (n screen : Nat) (running : Bool) :
    (acquireLoop x n screen running).locks.length = n := by
  induction n generalizing screen running with
  | zero => simp [acquireLoop]
  | succ n ih => simp [acquireLoop, ih]

theorem unlock_observed (locks : List (Option Lock)) :
    destroyedWindows (locks.flatMap unlockscreen) = (presentLocks locks).map Lock.win
    ∧ freedPixmaps (locks.flatMap unlockscreen) = (presentLocks locks).map Lock.pmap
    ∧ releasedScreens (locks.flatMap unlockscreen) = (presentLocks locks).map Lock.screen := by
  induction locks with
  | nil => simp [destroyedWindows, freedPixmaps, releasedScreens, presentLocks]
  | cons l ls ih =>
    obtain ⟨i1, i2, i3⟩ := ih
    simp only [destroyedWindows, freedPixmaps, releasedScreens, presentLocks] at i1 i2 i3 ⊢
    cases l with
    | none =>
      simp only [List.flatMap_cons, unlockscreen, List.nil_append, List.filterMap_cons, id]
      exact ⟨i1, i2, i3⟩
    | some lock =>
      simp only [List.flatMap_cons, unlockscreen, List.cons_append, List.nil_append,
        List.filterMap_cons, id, List.map_cons]
      exact ⟨by rw [i1], by rw [i2], by rw [i3]⟩

/-- Claim C16.  For every LockSet, whatever slots are present or absent, the
release loop visits every slot without fault: its calls are those of
`unlockscreen` on each slot in turn, `unlockscreen` on an absent Head makes no
call at all, and the windows destroyed and the pixmaps freed are those of the
present Heads, each once.  The array that the acquisition loop fills has
`nscreens` slots, so this is the loop of lines 321-322. -/
theorem release_visits_every_slot (locks : List (Option Lock)) :
    releaseLoop locks locks.length 0 = .ok (locks.flatMap unlockscreen)
    ∧ unlockscreen none = []
    ∧ destroyedWindows (locks.flatMap unlockscreen) = (presentLocks locks).map Lock.win
    ∧ freedPixmaps (locks.flatMap unlockscreen) = (presentLocks locks).map Lock.pmap
    ∧ ∀ (x : XEnv) (n : Nat) (running : Bool),
        releaseLoop (acquireLoop x n 0 running).locks n 0
          = .ok ((acquireLoop x n 0 running).locks.flatMap unlockscreen) := by
  refine ⟨?_, rfl, (unlock_observed locks).1, (unlock_observed locks).2.1, ?_⟩
  · rw [releaseLoop_ok locks locks.length 0 (by simp)]
    simp
  · intro x n running
    rw [releaseLoop_ok _ n 0 (by simp [acquireLoop_length])]
    simp

theorem release_visits_every_slot_witness :
    releaseLoop [some (mkLock sampleX 0), none, some (mkLock sampleX 2)] 3 0
      = .ok [Effect.ungrabPointer, Effect.freePixmap 30, Effect.destroyWindow 20,
          Effect.freeLock 0, Effect.ungrabPointer, Effect.freePixmap 32,
          Effect.destroyWindow 22, Effect.freeLock 2] :=
  (release_visits_every_slot [some (mkLock sampleX 0), none, some (mkLock sampleX 2)]).1.trans
    (by decide)

/-- Claim C17 as stated fails.  On two screens, both acquired, the run of
`main` frees the lock of screen 0 first and the lock of screen 1 last: the
order of acquisition, not its reverse. -/
theorem release_order_counterexample :
    (main sampleWorld).1 = .exit 0
    ∧ (acquireLoop sampleWorld.x 2 0 true).locks
        = [some (mkLock sampleX 0), some (mkLock sampleX 1)]
    ∧ releasedScreens (main sampleWorld).2 = [0, 1]
    ∧ releasedScreens (main sampleWorld).2 ≠ [1, 0] := by
  refine ⟨by decide, by decide, by decide, by decide⟩

theorem presentLocks_map_some (ls : List Lock) : presentLocks (ls.map some) = ls := by
  induction ls with
  | nil => rfl
  | cons l ls ih =>
    simp only [presentLocks, List.map_cons, List.filterMap_cons, id] at ih ⊢
    rw [ih]

/-- The slots after an acquisition in which every screen succeeds. -/
theorem acquireLoop_all_present (x : XEnv) (n : Nat)
    (hm : ∀ i, i < n → x.mallocOk i = true)
    (hp : ∀ i, i < n → ∃ k, k < grabBudget ∧ x.grabPointer i k = true)
    (hk : ∀ i, i < n → ∃ k, k < grabBudget ∧ x.grabKeyboard i k = true) :
    (acquireLoop x n 0 true).locks = ((List.range n).map (mkLock x)).map some := by
  obtain ⟨h1, -, -, -⟩ := acquireLoop_success x n 0
    (fun i _ h => hm i (by omega)) (fun i _ h => hp i (by omega)) (fun i _ h => hk i (by omega))
  rw [← List.range_eq_range'] at h1
  rw [h1, List.map_map]
  rfl

/-- Claim C17, amended.  For every screen count `n`, when all `n` Heads are
acquired (`malloc` and both grabs succeed on every screen), the release loop
releases them in increasing screen order, which is the order of their
acquisition: screen 0 first, screen `n - 1` last. -/
theorem released_in_acquisition_order (x : XEnv) (n : Nat)
    (hm : ∀ i, i < n → x.mallocOk i = true)
    (hp : ∀ i, i < n → ∃ k, k < grabBudget ∧ x.grabPointer i k = true)
    (hk : ∀ i, i < n → ∃ k, k < grabBudget ∧ x.grabKeyboard i k = true) :
    ∃ rel, releaseLoop (acquireLoop x n 0 true).locks n 0 = .ok rel
      ∧ releasedScreens rel = List.range n
      ∧ (presentLocks (acquireLoop x n 0 true).locks).map Lock.screen = List.range n := by
  have h1 := acquireLoop_all_present x n hm hp hk
  have hpres : (presentLocks (acquireLoop x n 0 true).locks).map Lock.screen = List.range n := by
    rw [h1, presentLocks_map_some, List.map_map]
    simp [Function.comp_def, mkLock]
  refine ⟨_, releaseLoop_ok _ n 0 (by simp [acquireLoop_length]), ?_, hpres⟩
  rw [List.drop_zero, (unlock_observed _).2.2, hpres]

theorem released_in_acquisition_order_witness :
    ∃ rel, releaseLoop (acquireLoop sampleX 3 0 true).locks 3 0 = .ok rel
      ∧ releasedScreens rel = List.range 3
      ∧ (presentLocks (acquireLoop sampleX 3 0 true).locks).map Lock.screen = List.range 3 :=
  released_in_acquisition_order sampleX 3 (fun _ _ => rfl)
    (fun _ _ => ⟨2, by decide, rfl⟩) (fun _ _ => ⟨2, by decide, rfl⟩)


/-! ## The retry loops and the acquisition loop -/

/-- The retry loop with an offset is the retry loop of the shifted grab. -/
theorem grabLoop_shift (grab : Nat → Bool) (call : Bool → Effect) (len a : Nat) :
    grabLoop grab call len a = grabLoop (fun k => grab (a + k)) call len 0 := by
  induction len generalizing grab a with
  | zero => rfl
  | succ len ih =>
    simp only [grabLoop, Nat.add_zero]
    rw [ih grab (a + 1), ih (fun k => grab (a + k)) (0 + 1)]
    simp only [Nat.zero_add, Nat.add_assoc]

/-- The retry loop over a budget, described by the first success. -/
theorem grabLoop_find (grab : Nat → Bool) (call : Bool → Effect) (len : Nat) :
    grabLoop grab call len 0 =
      match (List.range len).find? grab with
      | some k => (len - k, (List.replicate k [call false, Effect.usleep]).flatten ++ [call true])
      | none => (0, (List.replicate len [call false, Effect.usleep]).flatten) := by
  induction len generalizing grab with
  | zero => rfl
  | succ len ih =>
    rw [List.range_succ_eq_map, List.find?_cons]
    simp only [grabLoop]
    cases hg : grab 0 with
    | true => simp
    | false =>
      simp only [Bool.false_eq_true, if_false]
      rw [grabLoop_shift, ih, List.find?_map]
      have hc : (grab ∘ Nat.succ) = fun k => grab (0 + 1 + k) := by
        funext k
        simp [Nat.succ_eq_add_one, Nat.add_comm]
      rw [hc]
      cases (List.range len).find? (fun k => grab (0 + 1 + k)) with
      | none => simp [List.replicate_succ]
      | some k => simp [List.replicate_succ]


/-- The retry loop of `lockscreen` follows the bounded-retry policy: its calls
are `grabCalls`, and its counter ends positive exactly when the grab succeeds
within the budget. -/
theorem grabLoop_policy (grab : Nat → Bool) (call : Bool → Effect) :
    (grabLoop grab call grabBudget 0).2 = grabCalls grab call
    ∧ decide ((grabLoop grab call grabBudget 0).1 > 0) = succeeds grab := by
  rw [grabLoop_find]
  simp only [grabCalls, succeeds, firstSuccess]
  cases hf : (List.range grabBudget).find? grab with
  | none => simp
  | some k =>
    have hk : k < grabBudget := List.mem_range.1 (List.mem_of_find?_eq_some hf)
    simp only [Option.isSome_some, decide_eq_true_eq, true_and]
    omega

/-- What `find?` over `List.range` returns is the least index that satisfies
the predicate. -/
theorem find_range_first (grab : Nat → Bool) (n k : Nat)
    (h : (List.range n).find? grab = some k) :
    k < n ∧ grab k = true ∧ ∀ j, j < k → grab j = false := by
  induction n generalizing grab k with
  | zero => simp at h
  | succ n ih =>
    rw [List.range_succ_eq_map, List.find?_cons] at h
    cases hg : grab 0 with
    | true =>
      simp only [hg, Option.some.injEq] at h
      subst h
      exact ⟨by omega, hg, by intro j hj; omega⟩
    | false =>
      simp only [hg, List.find?_map, Option.map_eq_some'] at h
      obtain ⟨k1, hk1, rfl⟩ := h
      obtain ⟨h1, h2, h3⟩ := ih (grab ∘ Nat.succ) k1 hk1
      refine ⟨by omega, h2, ?_⟩
      intro j hj
      cases j with
      | zero => exact hg
      | succ j => exact h3 j (by omega)

/-- The number of attempts under the bounded-retry policy is at most the
budget, and the attempt made last is the first success, if there is one. -/
theorem attemptsMade_le (grab : Nat → Bool) :
    attemptsMade grab ≤ grabBudget
    ∧ ∀ k, firstSuccess grab = some k → grab k = true ∧ ∀ j, j < k → grab j = false := by
  constructor
  · unfold attemptsMade
    cases hf : firstSuccess grab with
    | none => simp
    | some k =>
      have hk := (find_range_first grab grabBudget k hf).1
      simp only
      omega
  · intro k hf
    exact (find_range_first grab grabBudget k hf).2

/-- A grab succeeds within the budget exactly when some attempt below the
budget succeeds. -/
theorem succeeds_iff (grab : Nat → Bool) :
    succeeds grab = true ↔ ∃ k, k < grabBudget ∧ grab k = true := by
  unfold succeeds firstSuccess
  rw [List.find?_isSome]
  constructor
  · rintro ⟨k, hk, hg⟩
    exact ⟨k, List.mem_range.1 hk, hg⟩
  · rintro ⟨k, hk, hg⟩
    exact ⟨k, List.mem_range.2 hk, hg⟩

/-- What a call of `lockscreen` returns and leaves in `running`, when its
`malloc` succeeds. -/
theorem lockscreen_result (x : XEnv) (running : Bool) (screen : Nat)
    (hm : x.mallocOk screen = true) :
    (lockscreen x running screen).lock
        = (if running && grabsOk x screen then some (mkLock x screen) else none)
    ∧ (lockscreen x running screen).running = (running && grabsOk x screen) := by
  obtain ⟨-, hp⟩ := grabLoop_policy (x.grabPointer screen)
    (Effect.grabPointer (mkLock x screen).root)
  obtain ⟨-, hk⟩ := grabLoop_policy (x.grabKeyboard screen)
    (Effect.grabKeyboard (mkLock x screen).root)
  cases h1 : succeeds (x.grabPointer screen) <;> cases h2 : succeeds (x.grabKeyboard screen)
    <;> rw [h1] at hp <;> rw [h2] at hk <;> cases running
    <;> simp [lockscreen, hm, hp, hk, grabsOk, h1, h2]


theorem countP_replicate_flatten (p : Effect → Bool) (k : Nat) (l : List Effect) :
    ((List.replicate k l).flatten).countP p = k * l.countP p := by
  induction k with
  | zero => simp
  | succ k ih =>
    rw [List.replicate_succ, List.flatten_cons, List.countP_append, ih]
    ring

/-- The calls of a pointer retry loop, counted. -/
theorem grabCalls_pointer (grab : Nat → Bool) (root : Nat) :
    pointerAttempts (grabCalls grab (Effect.grabPointer root)) = attemptsMade grab
    ∧ keyboardAttempts (grabCalls grab (Effect.grabPointer root)) = 0 := by
  unfold pointerAttempts keyboardAttempts grabCalls attemptsMade
  cases firstSuccess grab with
  | none => simp [countP_replicate_flatten, List.countP_cons]
  | some k => simp [countP_replicate_flatten, List.countP_cons, List.countP_append]

/-- The calls of a keyboard retry loop, counted. -/
theorem grabCalls_keyboard (grab : Nat → Bool) (root : Nat) :
    keyboardAttempts (grabCalls grab (Effect.grabKeyboard root)) = attemptsMade grab
    ∧ pointerAttempts (grabCalls grab (Effect.grabKeyboard root)) = 0 := by
  unfold pointerAttempts keyboardAttempts grabCalls attemptsMade
  cases firstSuccess grab with
  | none => simp [countP_replicate_flatten, List.countP_cons]
  | some k => simp [countP_replicate_flatten, List.countP_cons, List.countP_append]

/-- Claim C12.  For a call of `lockscreen` entered with `running` true (and a
successful `malloc`), whatever the grab results: the pointer grab is attempted
under the bounded-retry policy, at most 1000 times and not beyond its first
success; the keyboard grab is attempted, under the same policy, only if the
pointer grab succeeded; the call returns the Head if and only if both grabs
succeeded within their budgets, and otherwise it ends with the calls of
`unlockscreen` on the lock and returns NULL. -/
theorem lockscreen_retry_policy (x : XEnv) (screen : Nat) (hm : x.mallocOk screen = true) :
    (lockscreen x true screen).trace
        = setupTrace (mkLock x screen)
          ++ grabCalls (x.grabPointer screen) (Effect.grabPointer (mkLock x screen).root)
          ++ (if succeeds (x.grabPointer screen) then
                grabCalls (x.grabKeyboard screen) (Effect.grabKeyboard (mkLock x screen).root)
              else [])
          ++ (if grabsOk x screen then [Effect.selectInput (mkLock x screen).root]
              else unlockscreen (some (mkLock x screen)))
    ∧ (lockscreen x true screen).lock
        = (if grabsOk x screen then some (mkLock x screen) else none)
    ∧ (lockscreen x true screen).running = grabsOk x screen
    ∧ pointerAttempts (lockscreen x true screen).trace = attemptsMade (x.grabPointer screen)
    ∧ attemptsMade (x.grabPointer screen) ≤ grabBudget
    ∧ keyboardAttempts (lockscreen x true screen).trace
        = (if succeeds (x.grabPointer screen) then attemptsMade (x.grabKeyboard screen) else 0)
    ∧ attemptsMade (x.grabKeyboard screen) ≤ grabBudget := by
  obtain ⟨hl, hr⟩ := lockscreen_result x true screen hm
  simp only [Bool.true_and] at hl hr
  obtain ⟨tp, hp⟩ := grabLoop_policy (x.grabPointer screen)
    (Effect.grabPointer (mkLock x screen).root)
  obtain ⟨tk, hk⟩ := grabLoop_policy (x.grabKeyboard screen)
    (Effect.grabKeyboard (mkLock x screen).root)
  have htrace : (lockscreen x true screen).trace
        = setupTrace (mkLock x screen)
          ++ grabCalls (x.grabPointer screen) (Effect.grabPointer (mkLock x screen).root)
          ++ (if succeeds (x.grabPointer screen) then
                grabCalls (x.grabKeyboard screen) (Effect.grabKeyboard (mkLock x screen).root)
              else [])
          ++ (if grabsOk x screen then [Effect.selectInput (mkLock x screen).root]
              else unlockscreen (some (mkLock x screen))) := by
    cases h1 : succeeds (x.grabPointer screen) <;> cases h2 : succeeds (x.grabKeyboard screen)
      <;> rw [h1] at hp <;> rw [h2] at hk
      <;> simp [lockscreen, hm, hp, hk, grabsOk, h1, h2, tp, tk]
  have hsetup : pointerAttempts (setupTrace (mkLock x screen)) = 0
      ∧ keyboardAttempts (setupTrace (mkLock x screen)) = 0 := by
    simp [pointerAttempts, keyboardAttempts, setupTrace]
  have htail : pointerAttempts (if grabsOk x screen then
          [Effect.selectInput (mkLock x screen).root]
        else unlockscreen (some (mkLock x screen))) = 0
      ∧ keyboardAttempts (if grabsOk x screen then
          [Effect.selectInput (mkLock x screen).root]
        else unlockscreen (some (mkLock x screen))) = 0 := by
    cases grabsOk x screen <;> simp [pointerAttempts, keyboardAttempts, unlockscreen]
  have happ : ∀ a b : List Effect, pointerAttempts (a ++ b) = pointerAttempts a + pointerAttempts b
      := fun a b => List.countP_append _ a b
  have kapp : ∀ a b : List Effect,
      keyboardAttempts (a ++ b) = keyboardAttempts a + keyboardAttempts b :=
    fun a b => List.countP_append _ a b
  have gp := grabCalls_pointer (x.grabPointer screen) (mkLock x screen).root
  have gk := grabCalls_keyboard (x.grabKeyboard screen) (mkLock x screen).root
  refine ⟨htrace, hl, hr, ?_, (attemptsMade_le _).1, ?_, (attemptsMade_le _).1⟩
  · rw [htrace, happ, happ, happ, hsetup.1, htail.1, gp.1]
    cases succeeds (x.grabPointer screen)
    · simp [pointerAttempts]
    · simp [gk.2]
  · rw [htrace, kapp, kapp, kapp, hsetup.2, htail.2, gp.2]
    cases succeeds (x.grabPointer screen)
    · simp [keyboardAttempts]
    · simp [gk.1]


theorem lockscreen_retry_policy_witness :
    (lockscreen sampleX true 0).lock = some (mkLock sampleX 0)
    ∧ pointerAttempts (lockscreen sampleX true 0).trace = 3
    ∧ keyboardAttempts (lockscreen sampleX true 0).trace = 3
    ∧ (lockscreen busyX true 0).lock = none
    ∧ pointerAttempts (lockscreen busyX true 0).trace = 3
    ∧ keyboardAttempts (lockscreen busyX true 0).trace = 1000 :=
  ⟨(lockscreen_retry_policy sampleX 0 rfl).2.1.trans (by decide),
    (lockscreen_retry_policy sampleX 0 rfl).2.2.2.1.trans (by decide),
    (lockscreen_retry_policy sampleX 0 rfl).2.2.2.2.2.1.trans (by decide),
    (lockscreen_retry_policy busyX 0 rfl).2.1.trans (by decide),
    (lockscreen_retry_policy busyX 0 rfl).2.2.2.1.trans (by decide),
    (lockscreen_retry_policy busyX 0 rfl).2.2.2.2.2.1.trans (by decide)⟩

/-- Once `running` is false, every later call of `lockscreen` returns NULL and
leaves `running` false. -/
theorem lockscreen_stopped (x : XEnv) (screen : Nat) :
    (lockscreen x false screen).lock = none ∧ (lockscreen x false screen).running = false := by
  cases hm : x.mallocOk screen <;> simp [lockscreen, hm]

/-- The acquisition loop entered with `running` false fills in NULL only. -/
theorem acquireLoop_stopped (x : XEnv) (n screen : Nat) :
    (acquireLoop x n screen false).locks = List.replicate n none
    ∧ (acquireLoop x n screen false).nlocks = 0 := by
  induction n generalizing screen with
  | zero => simp [acquireLoop]
  | succ n ih =>
    obtain ⟨h1, h2⟩ := lockscreen_stopped x screen
    obtain ⟨i1, i2⟩ := ih (screen + 1)
    simp only [acquireLoop, h1, h2, i1, i2, List.replicate_succ]
    simp

/-- The slot of screen `screen + m` after the acquisition loop started at
`screen` with `running` true: present exactly when the grabs of all the
screens from `screen` to `screen + m` succeed. -/
theorem acquireLoop_slot (x : XEnv) (n screen : Nat)
    (hm : ∀ i, screen ≤ i → i < screen + n → x.mallocOk i = true) (m : Nat) (hlt : m < n) :
    (acquireLoop x n screen true).locks[m]?
      = some (if ∀ j, j ≤ m → grabsOk x (screen + j) = true then some (mkLock x (screen + m))
          else none) := by
  induction n generalizing screen m with
  | zero => omega
  | succ n ih =>
    obtain ⟨hl, hr⟩ := lockscreen_result x true screen (hm screen (le_refl _) (by omega))
    simp only [Bool.true_and] at hl hr
    cases m with
    | zero =>
      simp only [acquireLoop, List.getElem?_cons_zero, hl, Nat.add_zero]
      congr 1
      by_cases hg : grabsOk x screen = true
      · rw [if_pos hg, if_pos]
        intro j hj
        have : j = 0 := by omega
        subst this
        exact hg
      · rw [if_neg hg, if_neg]
        intro hall
        exact hg (hall 0 (le_refl _))
    | succ m =>
      simp only [acquireLoop, List.getElem?_cons_succ, hr]
      cases hg : grabsOk x screen with
      | true =>
        rw [ih (screen + 1) (fun i h1 h2 => hm i (by omega) (by omega)) m (by omega)]
        congr 1
        have he : screen + 1 + m = screen + (m + 1) := by omega
        by_cases hall : ∀ j, j ≤ m → grabsOk x (screen + 1 + j) = true
        · rw [if_pos hall, if_pos, he]
          intro j hj
          cases j with
          | zero => exact hg
          | succ j =>
            have := hall j (by omega)
            rw [show screen + (j + 1) = screen + 1 + j by omega]
            exact this
        · rw [if_neg hall, if_neg]
          intro hall2
          apply hall
          intro j hj
          have := hall2 (j + 1) (by omega)
          rw [show screen + 1 + j = screen + (j + 1) by omega]
          exact this
      | false =>
        rw [(acquireLoop_stopped x n (screen + 1)).1]
        rw [List.getElem?_replicate]
        have hmn : m < n := by omega
        rw [if_pos hmn, if_neg]
        intro hall
        have := hall 0 (Nat.zero_le _)
        simp [hg] at this

/-- Claim C11 as stated fails.  On two screens where the keyboard grab of
screen 0 never succeeds, the grabs of screen 1 would succeed on their own,
yet the slot of screen 1 is NULL as well: the failure on screen 0 leaves the
global `running` false for the call on screen 1. -/
theorem acquisition_independence_counterexample :
    grabsOk firstBusyX 0 = false ∧ grabsOk firstBusyX 1 = true
    ∧ (acquireLoop firstBusyX 2 0 true).locks = [none, none]
    ∧ (lockscreen firstBusyX true 1).lock = some (mkLock firstBusyX 1) := by
  refine ⟨by decide, by decide, by decide, by decide⟩

/-- Claim C11, amended.  For every pattern of grab outcomes over `n` screens
(with `malloc` succeeding), the acquisition loop fills the slot of every
screen, and the Head of screen `i` is present if and only if the pointer and
keyboard grabs of every screen `j <= i` succeed within their retry budgets;
otherwise the slot is NULL. -/
theorem slot_present_iff_all_up_to (x : XEnv) (n i : Nat)
    (hm : ∀ j, j < n → x.mallocOk j = true) (hi : i < n) :
    (acquireLoop x n 0 true).locks.length = n
    ∧ (acquireLoop x n 0 true).locks[i]?
        = some (if ∀ j, j ≤ i → grabsOk x j = true then some (mkLock x i) else none)
    ∧ ((acquireLoop x n 0 true).locks[i]? = some (some (mkLock x i))
        ↔ ∀ j, j ≤ i → grabsOk x j = true) := by
  have h := acquireLoop_slot x n 0 (fun j _ h2 => hm j (by omega)) i hi
  simp only [Nat.zero_add] at h
  refine ⟨acquireLoop_length x n 0 true, h, ?_⟩
  rw [h]
  by_cases hall : ∀ j, j ≤ i → grabsOk x j = true
  · simp [hall]
  · rw [if_neg hall]
    simp [hall]

theorem slot_present_iff_all_up_to_witness :
    (acquireLoop partialX 3 0 true).locks[0]? = some (some (mkLock partialX 0))
    ∧ (acquireLoop partialX 3 0 true).locks[2]? = some none
    ∧ grabsOk partialX 2 = true ∧ grabsOk partialX 1 = false :=
  ⟨(slot_present_iff_all_up_to partialX 3 0 (fun _ _ => rfl) (by decide)).2.1.trans (by decide),
    (slot_present_iff_all_up_to partialX 3 2 (fun _ _ => rfl) (by decide)).2.1.trans (by decide),
    by decide, by decide⟩

/-- The present slots after the acquisition loop started at `screen` form an
initial segment. -/
theorem acquireLoop_segment (x : XEnv) (n screen : Nat)
    (hm : ∀ i, screen ≤ i → i < screen + n → x.mallocOk i = true) :
    ∃ k, k ≤ n
      ∧ (acquireLoop x n screen true).locks
          = (List.range' screen k).map (fun i => some (mkLock x i)) ++ List.replicate (n - k) none
      ∧ (acquireLoop x n screen true).nlocks = k := by
  induction n generalizing screen with
  | zero => exact ⟨0, le_refl _, by simp [acquireLoop], by simp [acquireLoop]⟩
  | succ n ih =>
    obtain ⟨hl, hr⟩ := lockscreen_result x true screen (hm screen (le_refl _) (by omega))
    simp only [Bool.true_and] at hl hr
    cases hg : grabsOk x screen with
    | true =>
      obtain ⟨k, hk, h1, h2⟩ := ih (screen + 1) (fun i a b => hm i (by omega) (by omega))
      rw [hg] at hl hr
      refine ⟨k + 1, by omega, ?_, ?_⟩
      · have e : n + 1 - (k + 1) = n - k := by omega
        simp only [acquireLoop, hl, hr, h1, if_true, List.range'_succ, List.map_cons,
          List.cons_append, e]
      · simp only [acquireLoop, hl, hr, if_true, Option.isSome_some]
        rw [h2]
        omega
    | false =>
      rw [hg] at hl hr
      obtain ⟨s1, s2⟩ := acquireLoop_stopped x n (screen + 1)
      refine ⟨0, Nat.zero_le _, ?_, ?_⟩
      · simp only [acquireLoop, hl, hr, s1, Bool.false_eq_true, if_false, List.range'_zero,
          List.map_nil, List.nil_append, Nat.sub_zero, List.replicate_succ]
      · simp [acquireLoop, hl, hr, s2]

/-- When `malloc` succeeds on every screen, for every pattern of grab outcomes
over `n` screens with `running` true at the start: the present slots after
the acquisition loop are the slots of the screens `0 .. k-1` for some `k`,
all later slots are NULL, and `nlocks = k`; then `nlocks > 0` makes `locks[0]`
present, so that the access `(*locks)->win` of `readpw` finds the window of
screen 0. -/
theorem present_slots_initial_segment (x : XEnv) (n : Nat)
    (hm : ∀ i, i < n → x.mallocOk i = true) :
    ∃ k, k ≤ n
      ∧ (acquireLoop x n 0 true).locks
          = (List.range k).map (fun i => some (mkLock x i)) ++ List.replicate (n - k) none
      ∧ (acquireLoop x n 0 true).nlocks = k
      ∧ (0 < (acquireLoop x n 0 true).nlocks →
          ∀ env : Env, env.locks = (acquireLoop x n 0 true).locks →
            headWin env = .ok (x.newWindow 0)) := by
  obtain ⟨k, hk, h1, h2⟩ := acquireLoop_segment x n 0 (fun i _ h => hm i (by omega))
  rw [← List.range_eq_range'] at h1
  refine ⟨k, hk, h1, h2, ?_⟩
  intro hpos env henv
  rw [h2] at hpos
  obtain ⟨k1, rfl⟩ : ∃ k1, k = k1 + 1 := ⟨k - 1, by omega⟩
  rw [List.range_succ_eq_map] at h1
  simp only [headWin, henv, h1, List.map_cons, List.cons_append]
  rfl

theorem present_slots_initial_segment_witness :
    (∃ k, k ≤ 3
      ∧ (acquireLoop partialX 3 0 true).locks
          = (List.range k).map (fun i => some (mkLock partialX i)) ++ List.replicate (3 - k) none
      ∧ (acquireLoop partialX 3 0 true).nlocks = k
      ∧ (0 < (acquireLoop partialX 3 0 true).nlocks →
          ∀ env : Env, env.locks = (acquireLoop partialX 3 0 true).locks →
            headWin env = .ok (partialX.newWindow 0)))
    ∧ (acquireLoop partialX 3 0 true).locks = [some (mkLock partialX 0), none, none]
    ∧ (acquireLoop partialX 3 0 true).nlocks = 1 :=
  ⟨present_slots_initial_segment partialX 3 (fun _ _ => rfl), by decide, by decide⟩

/-- Claim C18, the failing run.  On two screens where `malloc(sizeof(Lock))`
fails for screen 0 and every grab succeeds, the call for screen 0 returns
NULL at line 218 without clearing `running`, and screen 1 is acquired: the
present slots are not an initial segment, `nlocks = 1` and `locks[0]` is
NULL.  The loop `readpw` is entered, and the Escape key makes it read
`(*locks)->win` through the NULL slot. -/
theorem first_slot_null_after_failed_malloc :
    (lockscreen mallocFailX true 0).lock = none
    ∧ (lockscreen mallocFailX true 0).running = true
    ∧ (acquireLoop mallocFailWorld.x mallocFailWorld.nscreens 0 true).locks
        = [none, some (mkLock mallocFailX 1)]
    ∧ (acquireLoop mallocFailWorld.x mallocFailWorld.nscreens 0 true).nlocks = 1
    ∧ headWin (readpwEnv mallocFailWorld [36, 49] [none, some (mkLock mallocFailX 1)])
        = .error .nullLock
    ∧ step (readpwEnv mallocFailWorld [36, 49] [none, some (mkLock mallocFailX 1)])
        (initState samplePasswd) (.key XK_Escape [27]) = .error .nullLock
    ∧ (main mallocFailWorld).1 = .fault .nullLock := by
  refine ⟨by decide, by decide, by decide, by decide, by decide, by decide, by decide⟩

/-- Claim C19, the failing run.  On two screens of which only screen 0 is
acquired, `nlocks = 1`, so `readpw` is entered; its first event is not a key
press, and the loop of lines 186-187 reads `locks[1]->win` through the NULL
slot of screen 1. -/
theorem reraise_reads_null_slot :
    (acquireLoop partialWorld.x partialWorld.nscreens 0 true).locks
        = [some (mkLock partialX 0), none]
    ∧ (acquireLoop partialWorld.x partialWorld.nscreens 0 true).nlocks = 1
    ∧ step (readpwEnv partialWorld [36, 49] [some (mkLock partialX 0), none])
        (initState samplePasswd) .other = .error .nullLock
    ∧ (main partialWorld).1 = .fault .nullLock := by
  refine ⟨by decide, by decide, by decide, by decide⟩

/-! ## Events that leave the credential state alone -/

/-- A keysym of modifier class passes the filter and reaches the `default`
case. -/
theorem modifier_reachesDefault (ksym : Nat) (h : IsModifierKey ksym = true) :
    reachesDefault ksym = true := by
  simp only [IsModifierKey, XK_Shift_L, XK_Hyper_R, XK_ISO_Lock, XK_ISO_Level5_Lock,
    XK_Mode_switch, XK_Num_Lock, Bool.or_eq_true, Bool.and_eq_true, decide_eq_true_eq] at h
  simp only [reachesDefault, normKeysym, ignoredKey, IsKeypadKey, IsFunctionKey,
    IsMiscFunctionKey, IsPFKey, IsPrivateKeypadKey, XK_KP_Space, XK_KP_Equal, XK_KP_Enter,
    XK_KP_0, XK_KP_9, XK_0, XK_F1, XK_F35, XK_Select, XK_Break, XK_KP_F1, XK_KP_F4, XK_Return,
    XK_Escape, XK_BackSpace]
  have hk : ¬ (0xff80 ≤ ksym ∧ ksym ≤ 0xffbd) := by omega
  simp only [Bool.and_eq_true, decide_eq_true_eq, hk, if_false, Bool.or_eq_true,
    Bool.not_eq_true', bne_iff_ne, ne_eq]
  refine ⟨⟨⟨?_, by omega⟩, by omega⟩, by omega⟩
  simp only [Bool.or_eq_false_iff, Bool.and_eq_false_iff, decide_eq_false_iff_not]
  omega

/-- Claim C15.  In every state: an event that is not a key press leaves the
credential state unchanged (its only calls are those of the re-raise loop); a
key event whose keysym is of function class, of keypad class other than the
keypad digits and keypad Enter, or a private keypad key, is discarded by the
filter and leaves the state unchanged; and a key event of modifier class, as
`XLookupString` reports it (with no looked-up bytes), leaves the state
unchanged as well: the filter does not test the modifier class, the event
reaches the append branch, and there the guard `num && ...` of line 170
fails. -/
theorem inert_events (env : Env) (s : State) :
    (∀ s1 fx, step env s .other = .ok (s1, fx) → s1 = s)
    ∧ (∀ tr, raiseLoop env.locks env.nscreens 0 = .ok tr → step env s .other = .ok (s, tr))
    ∧ (∀ ksym buf,
        (IsFunctionKey ksym = true ∨ IsMiscFunctionKey ksym = true ∨ IsPFKey ksym = true
          ∨ IsPrivateKeypadKey ksym = true
          ∨ (IsKeypadKey ksym = true ∧ ksym ≠ XK_KP_Enter
              ∧ ¬ (XK_KP_0 ≤ ksym ∧ ksym ≤ XK_KP_9))) →
        step env s (.key ksym buf) = .ok (s, []))
    ∧ (∀ ksym buf, IsModifierKey ksym = true → (Event.key ksym buf).fromLookup →
        reachesDefault ksym = true ∧ step env s (.key ksym buf) = .ok (s, [])) := by
  refine ⟨?_, ?_, ?_, ?_⟩
  · intro s1 fx h
    simp only [step] at h
    cases hr : raiseLoop env.locks env.nscreens 0 with
    | error f => simp [hr] at h
    | ok tr =>
      simp only [hr, Except.ok.injEq, Prod.mk.injEq] at h
      exact h.1.symm
  · intro tr hr
    simp [step, hr]
  · intro ksym buf h
    apply step_ignored
    simp only [IsFunctionKey, IsMiscFunctionKey, IsPFKey, IsPrivateKeypadKey, IsKeypadKey,
      XK_KP_Space, XK_KP_Equal, XK_KP_Enter, XK_KP_0, XK_KP_9, XK_F1, XK_F35, XK_Select,
      XK_Break, XK_KP_F1, XK_KP_F4, Bool.and_eq_true, decide_eq_true_eq] at h
    simp only [normKeysym, ignoredKey, IsKeypadKey, IsFunctionKey,
      IsMiscFunctionKey, IsPFKey, IsPrivateKeypadKey, XK_KP_Space, XK_KP_Equal, XK_KP_Enter,
      XK_KP_0, XK_KP_9, XK_0, XK_F1, XK_F35, XK_Select, XK_Break, XK_KP_F1, XK_KP_F4,
      XK_Return, Bool.and_eq_true, decide_eq_true_eq]
    by_cases hk : 0xff80 ≤ ksym ∧ ksym ≤ 0xffbd
    · have h1 : ksym ≠ 0xff8d := by omega
      have h2 : ¬ (0xffb0 ≤ ksym ∧ ksym ≤ 0xffb9) := by omega
      simp only [hk, and_self, if_true, h1, if_false, h2, Bool.or_eq_true, Bool.and_eq_true,
        decide_eq_true_eq, or_true, true_or]
    · simp only [hk, if_false, Bool.or_eq_true, Bool.and_eq_true, decide_eq_true_eq]
      omega
  · intro ksym buf h hl
    have hd := modifier_reachesDefault ksym h
    refine ⟨hd, ?_⟩
    have hb : buf = [] := hl.2 h
    subst hb
    rw [step_default env s ksym [] hd]
    simp [onDefault, appendGuard]

theorem inert_events_witness :
    step sampleEnv (armedState [97]) .other = .ok (armedState [97], [Effect.raiseWindow 20])
    ∧ step sampleEnv (armedState [97]) (.key XK_F1 [97]) = .ok (armedState [97], [])
    ∧ step sampleEnv (armedState [97]) (.key XK_KP_Space [32]) = .ok (armedState [97], [])
    ∧ step sampleEnv (armedState [97]) (.key XK_Shift_L []) = .ok (armedState [97], []) :=
  ⟨(inert_events sampleEnv (armedState [97])).2.1 [Effect.raiseWindow 20] (by decide),
    (inert_events sampleEnv (armedState [97])).2.2.1 XK_F1 [97] (Or.inl (by decide)),
    (inert_events sampleEnv (armedState [97])).2.2.1 XK_KP_Space [32]
      (Or.inr (Or.inr (Or.inr (Or.inr ⟨by decide, by decide, by decide⟩)))),
    ((inert_events sampleEnv (armedState [97])).2.2.2 XK_Shift_L [] (by decide)
      ⟨by decide, fun _ => rfl⟩).2⟩

/-! ## The sentinel and the buffer contents -/

/-- A C string that starts with bytes free of NUL starts with those bytes. -/
theorem cstr_append_nulfree (a b : List Nat) (h : ∀ c ∈ a, c ≠ 0) :
    cstr (a ++ b) = a ++ cstr b := by
  unfold cstr
  apply List.takeWhile_append_of_pos
  intro c hc
  simpa using h c hc

/-- A NUL among the first bytes ends the C string there. -/
theorem cstr_append_nul (a b : List Nat) (h : 0 ∈ a) : cstr (a ++ b) = cstr a := by
  induction a with
  | nil => simp at h
  | cons c a ih =>
    rw [List.cons_append, cstr_cons, cstr_cons]
    by_cases hc : c = 0
    · simp [hc]
    · simp only [hc, if_false]
      rw [ih]
      rcases List.mem_cons.1 h with h | h
      · exact absurd h.symm hc
      · exact h

/-- The array after lines 171-173, piece by piece. -/
theorem appendBuf_eq (s : State) (buf : List Nat) (hsz : s.passwd.length = passwdSize)
    (hb : s.len + buf.length < passwdSize) :
    appendBuf s buf
      = s.passwd.take s.len ++ buf ++ 0 :: s.passwd.drop (s.len + buf.length + 1) := by
  have hno : (s.len + buf.length) % 2 ^ 32 = s.len + buf.length := by
    apply Nat.mod_eq_of_lt
    simp only [passwdSize] at hb
    omega
  have hlen : (s.passwd.take s.len ++ buf).length = s.len + buf.length := by
    rw [List.length_append, List.length_take_of_le (by omega)]
  unfold appendBuf memcpy
  rw [hno, List.set_append_right _ _ (by rw [hlen]), hlen, Nat.sub_self,
    List.drop_eq_getElem_cons (by omega), List.set_cons_zero]

/-- The first `len + num` bytes after the append: the old contents and the
looked-up bytes. -/
theorem appendBuf_take (s : State) (buf : List Nat) (hsz : s.passwd.length = passwdSize)
    (hb : s.len + buf.length < passwdSize) :
    (appendBuf s buf).take (s.len + buf.length) = s.passwd.take s.len ++ buf := by
  rw [appendBuf_eq s buf hsz hb]
  apply List.take_left'
  rw [List.length_append, List.length_take_of_le (by omega)]

/-- After an append of bytes free of NUL, in a state whose C string is not
`"pw"` unless the buffer is empty: the whole array reads as the C string
`"pw"` exactly when the buffer contents are `"pw"`. -/
theorem cstr_appendBuf_iff (s : State) (buf : List Nat) (hsz : s.passwd.length = passwdSize)
    (hb : s.len + buf.length < passwdSize) (hnul : ∀ b ∈ buf, b ≠ 0)
    (hinv : 0 < s.len → cstr s.passwd ≠ pwLiteral) :
    cstr (appendBuf s buf) = pwLiteral
      ↔ (appendBuf s buf).take (s.len + buf.length) = pwLiteral := by
  rw [appendBuf_take s buf hsz hb, appendBuf_eq s buf hsz hb]
  by_cases hz : 0 ∈ s.passwd.take s.len
  · have hpos : 0 < s.len := by
      rcases Nat.eq_zero_or_pos s.len with h0 | h0
      · rw [h0] at hz
        simp at hz
      · exact h0
    have h1 : cstr (s.passwd.take s.len ++ buf ++ 0 :: s.passwd.drop (s.len + buf.length + 1))
        = cstr s.passwd := by
      rw [List.append_assoc, cstr_append_nul _ _ hz]
      conv_rhs => rw [← List.take_append_drop s.len s.passwd]
      rw [cstr_append_nul _ _ hz]
    rw [h1]
    constructor
    · intro h
      exact absurd h (hinv hpos)
    · intro h
      have : (0 : Nat) ∈ pwLiteral := by
        rw [← h]
        exact List.mem_append_left _ hz
      exact absurd this (by decide)
  · have hfree : ∀ c ∈ s.passwd.take s.len ++ buf, c ≠ 0 := by
      intro c hc
      rcases List.mem_append.1 hc with h | h
      · intro h0
        exact hz (h0 ▸ h)
      · exact hnul c h
    rw [cstr_append_nulfree _ _ hfree, cstr_cons]
    simp


/-- A property of states that every step keeps, on events of a given kind, is
kept by the loop; and a property of calls that holds for the calls of every
such step holds for the trace of the loop. -/
theorem readpwLoop_preserves (env : Env) (P : State → Prop) (Q : Event → Prop)
    (T : Effect → Prop) (hnext : T Effect.nextEvent)
    (hstep : ∀ s e s1 fx, P s → Q e → step env s e = .ok (s1, fx) → P s1 ∧ ∀ f ∈ fx, T f)
    (evs : List Event) :
    ∀ (s s2 : State) (tr : List Effect) (rest : List Event), P s → (∀ e ∈ evs, Q e) →
      readpwLoop env s evs = .ok (s2, tr, rest) → P s2 ∧ ∀ f ∈ tr, T f := by
  induction evs with
  | nil =>
    intro s s2 tr rest hs _ h
    simp only [readpwLoop, Except.ok.injEq, Prod.mk.injEq] at h
    obtain ⟨rfl, rfl, -⟩ := h
    exact ⟨hs, by simp⟩
  | cons e es ih =>
    intro s s2 tr rest hs hev h
    cases hr : s.running with
    | false =>
      rw [readpwLoop_stopped env s (e :: es) hr] at h
      simp only [Except.ok.injEq, Prod.mk.injEq] at h
      obtain ⟨rfl, rfl, -⟩ := h
      exact ⟨hs, by simp⟩
    | true =>
      rw [readpwLoop_cons env s e es hr] at h
      cases hst : step env s e with
      | error f => simp [hst] at h
      | ok r =>
        obtain ⟨sa, fx⟩ := r
        simp only [hst] at h
        cases hl : readpwLoop env sa es with
        | error f => simp [hl] at h
        | ok q =>
          obtain ⟨sb, trb, restb⟩ := q
          simp only [hl, Except.ok.injEq, Prod.mk.injEq] at h
          obtain ⟨rfl, rfl, rfl⟩ := h
          obtain ⟨ha, hfx⟩ := hstep s e sa fx hs (hev e (List.mem_cons_self _ _)) hst
          obtain ⟨hb, htr⟩ := ih sa sb trb restb ha
            (fun e1 h1 => hev e1 (List.mem_cons_of_mem _ h1)) hl
          refine ⟨hb, ?_⟩
          intro f hf
          simp only [List.cons_append, List.mem_cons, List.mem_append] at hf
          rcases hf with rfl | hf | hf
          · exact hnext
          · exact hfx f hf
          · exact htr f hf

/-- A step keeps `noStalePw`. -/
theorem step_noStalePw (env : Env) (s s1 : State) (e : Event) (fx : List Effect)
    (hs : s.inv) (hn : s.noStalePw) (he : e.wf) (h : step env s e = .ok (s1, fx)) :
    s1.noStalePw := by
  obtain ⟨hlen, hsz⟩ := hs
  cases e with
  | other =>
    simp only [step] at h
    cases hr : raiseLoop env.locks env.nscreens 0 with
    | error f => simp [hr] at h
    | ok tr =>
      simp only [hr, Except.ok.injEq, Prod.mk.injEq] at h
      obtain ⟨rfl, -⟩ := h
      exact hn
  | key ksym buf =>
    have hbuf : buf.length ≤ bufSize := he
    by_cases h1 : ignoredKey (normKeysym ksym) = true
    · rw [step_ignored env s ksym buf h1] at h
      simp only [Except.ok.injEq, Prod.mk.injEq] at h
      obtain ⟨rfl, -⟩ := h
      exact hn
    by_cases h2 : normKeysym ksym = XK_Return
    · rw [step_return env s ksym buf h2] at h
      cases hp : s.pwmode with
      | false =>
        simp only [onReturn, hp, Bool.not_false, if_true, Except.ok.injEq, Prod.mk.injEq] at h
        obtain ⟨rfl, -⟩ := h
        exact hn
      | true =>
        simp only [onReturn, hp, hlen, Bool.not_true, Bool.false_eq_true, if_false,
          if_true] at h
        cases hc : env.crypt (cstr (s.passwd.set s.len 0)) env.pws with
        | none => simp [hc] at h
        | some hash =>
          cases hw : headWin env with
          | error f => simp [hc, hw] at h
          | ok win =>
            simp only [hc, hw, Except.ok.injEq, Prod.mk.injEq] at h
            obtain ⟨rfl, -⟩ := h
            intro hpos
            simp at hpos
    by_cases h3 : normKeysym ksym = XK_Escape
    · rw [step_escape env s ksym buf h3] at h
      cases hw : headWin env with
      | error f => simp [onEscape, hw] at h
      | ok win =>
        simp only [onEscape, hw, Except.ok.injEq, Prod.mk.injEq] at h
        obtain ⟨rfl, -⟩ := h
        intro hpos
        simp at hpos
    by_cases h4 : normKeysym ksym = XK_BackSpace
    · rw [step_backspace env s ksym buf h4] at h
      simp only [Except.ok.injEq, Prod.mk.injEq] at h
      obtain ⟨rfl, -⟩ := h
      intro hpos
      simp only [onBackSpace] at hpos ⊢
      split_ifs at hpos ⊢ with hz
      · exact hn (by omega)
      · exact hn hpos
    have hk : reachesDefault ksym = true := by
      simp [reachesDefault, h1, h2, h3, h4]
    rw [step_default env s ksym buf hk] at h
    cases hg : appendGuard s buf with
    | false =>
      simp only [onDefault, hg, Bool.false_eq_true, if_false, Except.ok.injEq,
        Prod.mk.injEq] at h
      obtain ⟨rfl, -⟩ := h
      exact hn
    | true =>
      obtain ⟨hb, hmod⟩ := appendGuard_bound s buf hlen hbuf hg
      simp only [onDefault, hg, Nat.le_of_lt hb, if_true, hmod] at h
      split_ifs at h with h0
      · cases hw : headWin env with
        | error f => simp [hw] at h
        | ok win =>
          simp only [hw, Except.ok.injEq, Prod.mk.injEq] at h
          obtain ⟨rfl, -⟩ := h
          intro hpos
          simp at hpos
      · simp only [Except.ok.injEq, Prod.mk.injEq] at h
        obtain ⟨rfl, -⟩ := h
        intro _ hc
        exact h0 ((strcmp_eq_zero_iff _ _).2 (hc.trans cstr_pwLiteral.symm))

/-- Every state that the loop reaches from the initial state satisfies the
invariant and `noStalePw`. -/
theorem readpw_noStalePw (env : Env) (passwd0 : List Nat) (evs : List Event)
    (s : State) (tr : List Effect) (rest : List Event)
    (h0 : passwd0.length = passwdSize) (hev : ∀ e ∈ evs, e.wf)
    (h : readpw env passwd0 evs = .ok (s, tr, rest)) : s.inv ∧ s.noStalePw := by
  have := readpwLoop_preserves env (fun s => s.inv ∧ s.noStalePw) Event.wf (fun _ => True)
    trivial
    (fun s e s1 fx hs he hst =>
      ⟨⟨(step_inv env s e hs.1 he).2 s1 fx hst, step_noStalePw env s s1 e fx hs.1 hs.2 he hst⟩,
        fun _ _ => trivial⟩)
    evs (initState passwd0) s tr rest
    ⟨⟨by simp [initState, passwdSize], h0⟩, by intro hpos; simp [initState] at hpos⟩ hev h
  exact this.1


/-- Claim C13.  In every state that the loop reaches from the initial state
(over events of at most 32 looked-up bytes), with the first Head present, for
every key event that reaches the append branch with looked-up bytes free of
NUL: the step sets `pwmode`, resets `len` to 0 and displays "pw-mode" if and
only if the append is performed and the whole buffer after it, the first
`len + num` bytes, is exactly `"pw"`; when the append is performed and the
buffer is anything else, `len` grows by the number of appended bytes and
`pwmode`, `running` are unchanged. -/
theorem sentinel_exact_match (env : Env) (passwd0 : List Nat) (evs : List Event)
    (s : State) (tr : List Effect) (rest : List Event) (ksym : Nat) (buf : List Nat) (win : Nat)
    (h0 : passwd0.length = passwdSize) (hev : ∀ e ∈ evs, e.wf)
    (hrun : readpw env passwd0 evs = .ok (s, tr, rest))
    (hk : reachesDefault ksym = true) (hbuf : buf.length ≤ bufSize)
    (hnul : ∀ b ∈ buf, b ≠ 0) (hw : headWin env = .ok win) :
    ((∃ s1 fx, step env s (.key ksym buf) = .ok (s1, fx) ∧ s1.pwmode = true ∧ s1.len = 0
          ∧ Effect.displayMsg win "pw-mode" ∈ fx)
        ↔ appendGuard s buf = true
          ∧ (appendBuf s buf).take (s.len + buf.length) = pwLiteral)
    ∧ (appendGuard s buf = true →
        (appendBuf s buf).take (s.len + buf.length) = pwLiteral →
        step env s (.key ksym buf)
          = .ok ({ s with passwd := appendBuf s buf, len := 0, pwmode := true },
              [Effect.displayMsg win "pw-mode"]))
    ∧ (appendGuard s buf = true →
        (appendBuf s buf).take (s.len + buf.length) ≠ pwLiteral →
        step env s (.key ksym buf)
          = .ok ({ s with passwd := appendBuf s buf, len := s.len + buf.length }, [])) := by
  obtain ⟨⟨hlen, hsz⟩, hn⟩ := readpw_noStalePw env passwd0 evs s tr rest h0 hev hrun
  rw [step_default env s ksym buf hk]
  cases hg : appendGuard s buf with
  | false =>
    refine ⟨?_, by simp, by simp⟩
    simp [onDefault, hg]
  | true =>
    obtain ⟨hb, hmod⟩ := appendGuard_bound s buf hlen hbuf hg
    have hiff := cstr_appendBuf_iff s buf hsz hb hnul hn
    have hs0 : strcmp (appendBuf s buf) pwLiteral = 0
        ↔ (appendBuf s buf).take (s.len + buf.length) = pwLiteral := by
      rw [strcmp_eq_zero_iff, cstr_pwLiteral]
      exact hiff
    have hyes : (appendBuf s buf).take (s.len + buf.length) = pwLiteral →
        onDefault env s buf
          = .ok ({ s with passwd := appendBuf s buf, len := 0, pwmode := true },
              [Effect.displayMsg win "pw-mode"]) := by
      intro ht
      simp [onDefault, hg, Nat.le_of_lt hb, hs0.2 ht, hw, display_msg]
    have hno : (appendBuf s buf).take (s.len + buf.length) ≠ pwLiteral →
        onDefault env s buf
          = .ok ({ s with passwd := appendBuf s buf, len := s.len + buf.length }, []) := by
      intro ht
      have : strcmp (appendBuf s buf) pwLiteral ≠ 0 := fun h => ht (hs0.1 h)
      simp only [onDefault, hg, Nat.le_of_lt hb, this, hmod, if_true, if_false]
    refine ⟨?_, fun _ => hyes, fun _ => hno⟩
    constructor
    · rintro ⟨s1, fx, hst, -, -, hmem⟩
      refine ⟨rfl, ?_⟩
      by_contra ht
      rw [hno ht] at hst
      simp only [Except.ok.injEq, Prod.mk.injEq] at hst
      rw [← hst.2] at hmem
      simp at hmem
    · rintro ⟨-, ht⟩
      exact ⟨_, _, hyes ht, rfl, rfl, by simp⟩

theorem sentinel_exact_match_witness :
    step sampleEnv { passwd := [112, 0] ++ List.replicate 254 7, len := 1, pwmode := false,
                     running := true } (keyOf 119)
        = .ok ({ passwd := [112, 119, 0] ++ List.replicate 253 7, len := 0, pwmode := true,
                 running := true }, [Effect.displayMsg 20 "pw-mode"])
    ∧ step sampleEnv { passwd := [112, 0] ++ List.replicate 254 7, len := 1, pwmode := false,
                       running := true } (keyOf 120)
        = .ok ({ passwd := [112, 120, 0] ++ List.replicate 253 7, len := 2, pwmode := false,
                 running := true }, []) := by
  have h := sentinel_exact_match sampleEnv samplePasswd [keyOf 112]
    { passwd := [112, 0] ++ List.replicate 254 7, len := 1, pwmode := false, running := true }
    [Effect.nextEvent] []
  constructor
  · rw [keyOf, (h 119 [119] 20 (by decide) (by decide) (by decide) (by decide) (by decide)
      (by decide) (by decide)).2.1 (by decide) (by decide)]
    decide
  · rw [keyOf, (h 120 [120] 20 (by decide) (by decide) (by decide) (by decide) (by decide)
      (by decide) (by decide)).2.2 (by decide) (by decide)]
    decide

/-! ## Candidates never begin with the sentinel -/

/-- An array whose C string begins with `"pw"` begins with the bytes `p`,
`w`. -/
theorem prefix_cstr_pw (mem : List Nat) (h : pwLiteral <+: cstr mem) :
    ∃ r, mem = 112 :: 119 :: r := by
  cases mem with
  | nil => simp [cstr_nil, pwLiteral] at h
  | cons a mem =>
    rw [cstr_cons] at h
    by_cases ha : a = 0
    · simp [ha, pwLiteral] at h
    · simp only [ha, if_false, pwLiteral, List.cons_prefix_cons] at h
      obtain ⟨rfl, h⟩ := h
      cases mem with
      | nil => simp [cstr_nil] at h
      | cons b mem =>
        rw [cstr_cons] at h
        by_cases hb : b = 0
        · simp [hb] at h
        · simp only [hb, if_false, List.cons_prefix_cons] at h
          obtain ⟨rfl, -⟩ := h
          exact ⟨mem, rfl⟩

/-- The candidate of a state that satisfies the invariants does not begin
with `"pw"`. -/
theorem candidate_no_pw (s : State) (hs : s.inv) (hn : s.noPwHead) :
    ¬ pwLiteral <+: candidate s := by
  obtain ⟨hlen, hsz⟩ := hs
  intro hpre
  obtain ⟨r, hr⟩ := prefix_cstr_pw _ hpre
  obtain ⟨a, b, rest, hp⟩ : ∃ a b rest, s.passwd = a :: b :: rest := by
    cases hpw : s.passwd with
    | nil => simp [hpw, passwdSize] at hsz
    | cons a t =>
      cases t with
      | nil => simp [hpw, passwdSize] at hsz
      | cons b rest => exact ⟨a, b, rest, rfl⟩
  rcases Nat.lt_or_ge s.len 2 with h2 | h2
  · rw [hp] at hr
    have : s.len = 0 ∨ s.len = 1 := by omega
    rcases this with h | h
    · rw [h] at hr
      simp at hr
    · rw [h] at hr
      simp at hr
  · apply hn h2
    obtain ⟨k, hk⟩ : ∃ k, s.len = k + 2 := ⟨s.len - 2, by omega⟩
    rw [hp, hk] at hr
    simp only [List.set_cons_succ, List.cons.injEq] at hr
    rw [hp, hr.1, hr.2.1]
    rfl

/-- An append after which the buffer contents are `"pw"` leaves the C string
`"pw"` in the array. -/
theorem cstr_of_take_pw (s : State) (buf : List Nat) (hsz : s.passwd.length = passwdSize)
    (hb : s.len + buf.length < passwdSize)
    (h : (appendBuf s buf).take (s.len + buf.length) = pwLiteral) :
    cstr (appendBuf s buf) = pwLiteral := by
  rw [appendBuf_take s buf hsz hb] at h
  rw [appendBuf_eq s buf hsz hb, h]
  rfl

/-- An append at position 2 or later leaves the first two bytes alone. -/
theorem appendBuf_take_two (s : State) (buf : List Nat) (hsz : s.passwd.length = passwdSize)
    (hb : s.len + buf.length < passwdSize) (h2 : 2 ≤ s.len) :
    (appendBuf s buf).take 2 = s.passwd.take 2 := by
  rw [appendBuf_eq s buf hsz hb, List.append_assoc,
    List.take_append_of_le_length (by rw [List.length_take_of_le (by omega)]; exact h2),
    List.take_take]
  congr 1
  omega


/-- A step on an event of at most one looked-up byte keeps `noPwHead`, and a
candidate that it hands to `crypt` does not begin with `"pw"`. -/
theorem step_noPwHead (env : Env) (s s1 : State) (e : Event) (fx : List Effect)
    (hs : s.inv) (hn : s.noPwHead) (he : e.oneByte) (h : step env s e = .ok (s1, fx)) :
    s1.noPwHead
      ∧ ∀ f ∈ fx, ∀ key salt, f = Effect.crypt key salt → ¬ pwLiteral <+: key := by
  have hcand := candidate_no_pw s hs hn
  obtain ⟨hlen, hsz⟩ := hs
  cases e with
  | other =>
    simp only [step] at h
    cases hr : raiseLoop env.locks env.nscreens 0 with
    | error f => simp [hr] at h
    | ok tr =>
      simp only [hr, Except.ok.injEq, Prod.mk.injEq] at h
      obtain ⟨rfl, rfl⟩ := h
      refine ⟨hn, ?_⟩
      intro f hf key salt hfe
      obtain ⟨win, hwin⟩ := raiseLoop_trace _ _ _ _ hr f hf
      rw [hwin] at hfe
      cases hfe
  | key ksym buf =>
    have hone : buf.length ≤ 1 := he
    have hbuf : buf.length ≤ bufSize := by
      simp only [bufSize]
      omega
    by_cases h1 : ignoredKey (normKeysym ksym) = true
    · rw [step_ignored env s ksym buf h1] at h
      simp only [Except.ok.injEq, Prod.mk.injEq] at h
      obtain ⟨rfl, rfl⟩ := h
      exact ⟨hn, by simp⟩
    by_cases h2 : normKeysym ksym = XK_Return
    · rw [step_return env s ksym buf h2] at h
      cases hp : s.pwmode with
      | false =>
        simp only [onReturn, hp, Bool.not_false, if_true, Except.ok.injEq, Prod.mk.injEq] at h
        obtain ⟨rfl, rfl⟩ := h
        exact ⟨hn, by simp⟩
      | true =>
        simp only [onReturn, hp, hlen, Bool.not_true, Bool.false_eq_true, if_false,
          if_true] at h
        cases hc : env.crypt (cstr (s.passwd.set s.len 0)) env.pws with
        | none => simp [hc] at h
        | some hash =>
          cases hw : headWin env with
          | error f => simp [hc, hw] at h
          | ok win =>
            simp only [hc, hw, Except.ok.injEq, Prod.mk.injEq] at h
            obtain ⟨rfl, rfl⟩ := h
            refine ⟨by intro h2; simp at h2, ?_⟩
            intro f hf key salt hfe
            subst hfe
            simp only [List.mem_append, List.mem_singleton, Effect.crypt.injEq, display_msg]
              at hf
            rcases hf with (hf | hf) | hf
            · rw [hf.1]
              exact hcand
            · split_ifs at hf
              · simp at hf
              · simp at hf
            · simp at hf
    by_cases h3 : normKeysym ksym = XK_Escape
    · rw [step_escape env s ksym buf h3] at h
      cases hw : headWin env with
      | error f => simp [onEscape, hw] at h
      | ok win =>
        simp only [onEscape, hw, Except.ok.injEq, Prod.mk.injEq] at h
        obtain ⟨rfl, rfl⟩ := h
        exact ⟨by intro h2; simp at h2, by simp [display_msg]⟩
    by_cases h4 : normKeysym ksym = XK_BackSpace
    · rw [step_backspace env s ksym buf h4] at h
      simp only [Except.ok.injEq, Prod.mk.injEq] at h
      obtain ⟨rfl, rfl⟩ := h
      refine ⟨?_, by simp⟩
      intro hpos
      simp only [onBackSpace] at hpos ⊢
      split_ifs at hpos ⊢ with hz
      · exact hn (by simp only at hpos; omega)
      · exact hn hpos
    have hk : reachesDefault ksym = true := by
      simp [reachesDefault, h1, h2, h3, h4]
    rw [step_default env s ksym buf hk] at h
    cases hg : appendGuard s buf with
    | false =>
      simp only [onDefault, hg, Bool.false_eq_true, if_false, Except.ok.injEq,
        Prod.mk.injEq] at h
      obtain ⟨rfl, rfl⟩ := h
      exact ⟨hn, by simp⟩
    | true =>
      obtain ⟨hb, hmod⟩ := appendGuard_bound s buf hlen hbuf hg
      have hnum : buf.length = 1 := by
        simp only [appendGuard, Bool.and_eq_true, decide_eq_true_eq] at hg
        omega
      simp only [onDefault, hg, Nat.le_of_lt hb, if_true, hmod] at h
      split_ifs at h with h0
      · cases hw : headWin env with
        | error f => simp [hw] at h
        | ok win =>
          simp only [hw, Except.ok.injEq, Prod.mk.injEq] at h
          obtain ⟨rfl, rfl⟩ := h
          exact ⟨by intro h2; simp at h2, by simp [display_msg]⟩
      · simp only [Except.ok.injEq, Prod.mk.injEq] at h
        obtain ⟨rfl, rfl⟩ := h
        refine ⟨?_, by simp⟩
        intro hpos
        simp only at hpos ⊢
        have hne : cstr (appendBuf s buf) ≠ pwLiteral := fun hc =>
          h0 ((strcmp_eq_zero_iff _ _).2 (hc.trans cstr_pwLiteral.symm))
        rcases Nat.lt_or_ge s.len 2 with hl2 | hl2
        · have hl1 : s.len + buf.length = 2 := by omega
          intro ht
          apply hne
          apply cstr_of_take_pw s buf hsz hb
          rw [hl1]
          exact ht
        · rw [appendBuf_take_two s buf hsz hb hl2]
          exact hn hl2

/-- Claim C20.  From the initial state of `readpw`, over every sequence of
events in which each key event delivers at most one looked-up byte: in the
state reached, if `len >= 2` then the first two buffer bytes are not `"pw"`;
and every candidate handed to `crypt` along the way neither begins with
`"pw"` nor equals it. -/
theorem no_candidate_begins_with_pw (env : Env) (passwd0 : List Nat) (evs : List Event)
    (s : State) (tr : List Effect) (rest : List Event)
    (h0 : passwd0.length = passwdSize) (hev : ∀ e ∈ evs, e.oneByte)
    (hrun : readpw env passwd0 evs = .ok (s, tr, rest)) :
    (2 ≤ s.len → s.passwd.take 2 ≠ pwLiteral)
    ∧ ∀ key salt, Effect.crypt key salt ∈ tr → ¬ pwLiteral <+: key ∧ key ≠ pwLiteral := by
  have hwf : ∀ e : Event, e.oneByte → e.wf := by
    intro e he
    cases e with
    | other => trivial
    | key ksym buf =>
      have h1 : buf.length ≤ 1 := he
      show buf.length ≤ bufSize
      simp only [bufSize]
      omega
  have := readpwLoop_preserves env (fun s => s.inv ∧ s.noPwHead) Event.oneByte
    (fun f => ∀ key salt, f = Effect.crypt key salt → ¬ pwLiteral <+: key)
    (by intro key salt h; cases h)
    (fun s e s1 fx hs he hst =>
      ⟨⟨(step_inv env s e hs.1 (hwf e he)).2 s1 fx hst,
          (step_noPwHead env s s1 e fx hs.1 hs.2 he hst).1⟩,
        (step_noPwHead env s s1 e fx hs.1 hs.2 he hst).2⟩)
    evs (initState passwd0) s tr rest
    ⟨⟨by simp [initState, passwdSize], h0⟩, by intro h2; simp [initState] at h2⟩ hev hrun
  refine ⟨this.1.2, ?_⟩
  intro key salt hmem
  have hnp := this.2 _ hmem key salt rfl
  refine ⟨hnp, ?_⟩
  intro heq
  apply hnp
  rw [heq]


theorem no_candidate_begins_with_pw_witness :
    (∀ e ∈ rearmEvents, e.oneByte)
    ∧ readpw sampleEnv samplePasswd rearmEvents
        = .ok ({ passwd := [120, 112, 119, 0] ++ List.replicate 252 7, len := 0,
                 pwmode := false, running := true },
            [Effect.nextEvent, Effect.nextEvent, Effect.displayMsg 20 "pw-mode",
              Effect.nextEvent, Effect.nextEvent, Effect.displayMsg 20 "pw-mode",
              Effect.nextEvent, Effect.nextEvent, Effect.nextEvent, Effect.nextEvent,
              Effect.crypt [120, 112, 119] [36, 49], Effect.displayMsg 20 "wrong password!",
              Effect.sleep, Effect.displayMsg 20 ""], [])
    ∧ ¬ pwLiteral <+: [120, 112, 119] :=
  ⟨by decide, by decide,
    ((no_candidate_begins_with_pw sampleEnv samplePasswd rearmEvents
      { passwd := [120, 112, 119, 0] ++ List.replicate 252 7, len := 0, pwmode := false,
        running := true }
      [Effect.nextEvent, Effect.nextEvent, Effect.displayMsg 20 "pw-mode",
        Effect.nextEvent, Effect.nextEvent, Effect.displayMsg 20 "pw-mode",
        Effect.nextEvent, Effect.nextEvent, Effect.nextEvent, Effect.nextEvent,
        Effect.crypt [120, 112, 119] [36, 49], Effect.displayMsg 20 "wrong password!",
        Effect.sleep, Effect.displayMsg 20 ""] []
      (by decide) (by decide) (by decide)).2 [120, 112, 119] [36, 49] (by decide)).1⟩

end Myslock
